import Mathlib

/-!
Shallow embedding of the relation-propagation engine of the
`lplabuskes/logical-solver` repository (`src/problem.py` and `src/clue.py`).

Tables are nested lists of tri-state values; the combined tensor is a nested
list of tables.  Every loop of the source iterates over index ranges, which
become folds over `List.range`.  The unbounded `while` loops of the source
(the inner loops of `apply_exactly_one_logic` and `apply_transposition_logic`
and the outer loop of `draw_conclusions`) take an explicit fuel parameter;
exhausting the fuel yields `Err.fuel`.  The `TypeError` raised by
`process_all_clues` when the clue list is `None` is modelled by
`Err.noClues`.  Negative Python indices (possible only through clue
conclusions whose index arithmetic underflows) are not modelled; every
theorem below stays inside the tensor bounds.
-/

namespace LogicalSolver

/-- Tri-state relation value (`RelationState` in `problem.py`). -/
inductive RelationState where
  | neutral
  | positive
  | negative
deriving DecidableEq, Repr

/-- Failure modes of the embedded engine: `fuel` models an unbounded source
loop that has not reached its exit condition within the given fuel, and
`noClues` models the `TypeError` raised by iterating over a `None` clue
list. -/
inductive Err where
  | fuel
  | noClues
deriving DecidableEq, Repr

/-- One pairwise relation matrix (an `assignment_table`, or one block of the
combined tensor). -/
abbrev Tbl := List (List RelationState)

/-- The combined tensor `combined_tables`. -/
abbrev Tensor := List (List Tbl)

/-- Read a table cell; out-of-range reads default to `neutral`. -/
def getC (t : Tbl) (i j : Nat) : RelationState :=
  (t.getD i []).getD j .neutral

/-- Write a table cell (no-op out of range, matching `List.set`). -/
def setC (t : Tbl) (i j : Nat) (v : RelationState) : Tbl :=
  t.set i ((t.getD i []).set j v)

/-- The table of the combined tensor at category pair `(x, y)`. -/
def extractTbl (T : Tensor) (x y : Nat) : Tbl :=
  (T.getD x []).getD y []

/-- Replace the table of the combined tensor at category pair `(x, y)`. -/
def writeTbl (T : Tensor) (x y : Nat) (t : Tbl) : Tensor :=
  T.set x ((T.getD x []).set y t)

/-- Read a cell of the combined tensor. -/
def getT (T : Tensor) (x y i j : Nat) : RelationState :=
  getC (extractTbl T x y) i j

/-- Write a cell of the combined tensor. -/
def setT (T : Tensor) (x y i j : Nat) (v : RelationState) : Tensor :=
  writeTbl T x y (setC (extractTbl T x y) i j v)

/-- Function `Problem.count_types`: the `(n_pos, n_neg, n_neu)` counts of the
first `n` cells of a line. -/
def countTypes (n : Nat) (line : Nat → RelationState) : Nat × Nat × Nat :=
  (List.range n).foldl
    (fun acc k =>
      match line k with
      | .neutral => (acc.1, acc.2.1, acc.2.2 + 1)
      | .negative => (acc.1, acc.2.1 + 1, acc.2.2)
      | .positive => (acc.1 + 1, acc.2.1, acc.2.2))
    (0, 0, 0)

/-- Per-cell body of the row half of `step_apply_exactly_one_logic`. -/
def exactlyOneRowBody (n p g i : Nat) (t : Tbl) (j : Nat) : Tbl :=
  if getC t i j ≠ .neutral then t
  else if p = 1 then setC t i j .negative
  else if g = n - 1 then setC t i j .positive
  else t

/-- Per-cell body of the column half of `step_apply_exactly_one_logic`. -/
def exactlyOneColBody (n p g j : Nat) (t : Tbl) (i : Nat) : Tbl :=
  if getC t i j ≠ .neutral then t
  else if p = 1 then setC t i j .negative
  else if g = n - 1 then setC t i j .positive
  else t

/-- Row half of `Problem.step_apply_exactly_one_logic`. -/
def stepExactlyOneRows (n : Nat) (acc : Bool × Tbl) : Bool × Tbl :=
  (List.range n).foldl
    (fun acc i =>
      let c := countTypes n (fun j => getC acc.2 i j)
      if c.1 + c.2.1 = n ∨ (c.1 < 1 ∧ c.2.1 < n - 1) then acc
      else (true, (List.range n).foldl (exactlyOneRowBody n c.1 c.2.1 i) acc.2))
    acc

/-- Column half of `Problem.step_apply_exactly_one_logic`. -/
def stepExactlyOneCols (n : Nat) (acc : Bool × Tbl) : Bool × Tbl :=
  (List.range n).foldl
    (fun acc j =>
      let c := countTypes n (fun i => getC acc.2 i j)
      if c.1 + c.2.1 = n ∨ (c.1 < 1 ∧ c.2.1 < n - 1) then acc
      else (true, (List.range n).foldl (exactlyOneColBody n c.1 c.2.1 j) acc.2))
    acc

/-- Function `Problem.step_apply_exactly_one_logic`: one sweep over the rows
and then the columns of a single table, flagging whether any line entered
the rewrite branch. -/
def stepExactlyOne (n : Nat) (t : Tbl) : Bool × Tbl :=
  stepExactlyOneCols n (stepExactlyOneRows n (false, t))

/-- The inner `while table_changed` loop of `Problem.apply_exactly_one_logic`
for a single table. -/
def exactlyOneFix (n : Nat) : Nat → Tbl → Except Err (Bool × Tbl)
  | fuel, t =>
    match stepExactlyOne n t with
    | (false, t') => .ok (false, t')
    | (true, t') =>
      match fuel with
      | 0 => .error .fuel
      | fuel + 1 => (exactlyOneFix n fuel t').map (fun p => (true, p.2))

/-- Sequential fold that propagates the first failure, the way a raised
Python exception aborts the enclosing loop. -/
def exceptFoldl {α β : Type} (f : α → β → Except Err α) : List β → α → Except Err α
  | [], a => .ok a
  | b :: l, a =>
    match f a b with
    | .error e => .error e
    | .ok a' => exceptFoldl f l a'

/-- All `(x, y)` table keys in the iteration order of
`for row in combined_table: for table in row`. -/
def tableKeys (nc : Nat) : List (Nat × Nat) :=
  (List.range nc).flatMap (fun x => (List.range nc).map (fun y => (x, y)))

/-- Function `Problem.apply_exactly_one_logic`: drive every table of the
combined tensor to its own fixpoint of `stepExactlyOne`. -/
def applyExactlyOneLogic (nc n fuel : Nat) (T : Tensor) : Except Err (Bool × Tensor) :=
  exceptFoldl
    (fun acc xy =>
      match exactlyOneFix n fuel (extractTbl acc.2 xy.1 xy.2) with
      | .error e => .error e
      | .ok (ch, t) => .ok (acc.1 || ch, writeTbl acc.2 xy.1 xy.2 t))
    (tableKeys nc) (false, T)

/-- Function `Problem.step_apply_transposition_logic` for the match
`(m0, m1, m2, m3)`: copy every known relation of the matched positions to
the respective partner, writing only cells that are still neutral. -/
def stepApplyTranspositionLogic (nc n m0 m1 m2 m3 : Nat) (T : Tensor) : Bool × Tensor :=
  (List.range nc).foldl
    (fun acc i =>
      if i = m0 then
        (List.range nc).foldl
          (fun acc j =>
            if i = j ∨ j = m1 then acc
            else
              (List.range n).foldl
                (fun acc k =>
                  let rel := getT acc.2 i j m2 k
                  if rel = .neutral then acc
                  else
                    let acc1 :=
                      if getT acc.2 m1 j m3 k = .neutral then
                        (true, setT acc.2 m1 j m3 k rel)
                      else acc
                    if getT acc1.2 j m1 k m3 = .neutral then
                      (true, setT acc1.2 j m1 k m3 rel)
                    else acc1)
                acc)
          acc
      else if i = m1 then
        (List.range nc).foldl
          (fun acc j =>
            if i = j ∨ j = m0 then acc
            else
              (List.range n).foldl
                (fun acc k =>
                  let rel := getT acc.2 i j m3 k
                  if rel = .neutral then acc
                  else
                    let acc1 :=
                      if getT acc.2 m0 j m2 k = .neutral then
                        (true, setT acc.2 m0 j m2 k rel)
                      else acc
                    if getT acc1.2 j m0 k m2 = .neutral then
                      (true, setT acc1.2 j m0 k m2 rel)
                    else acc1)
                acc)
          acc
      else acc)
    (false, T)

/-- The positive cells of the lower triangle of category pairs, in the scan
order of `Problem.apply_transposition_logic`. -/
def lowerPositives (nc n : Nat) (T : Tensor) : List (Nat × Nat × Nat × Nat) :=
  (List.range nc).flatMap (fun i =>
    (List.range i).flatMap (fun j =>
      (List.range n).flatMap (fun k =>
        (List.range n).filterMap (fun l =>
          if getT T i j k l = .positive then some (i, j, k, l) else none))))

/-- The inner `while match_changed` loop of
`Problem.apply_transposition_logic` for one discovered match. -/
def transFix (nc n m0 m1 m2 m3 : Nat) : Nat → Tensor → Except Err (Bool × Tensor)
  | fuel, T =>
    match stepApplyTranspositionLogic nc n m0 m1 m2 m3 T with
    | (false, T') => .ok (false, T')
    | (true, T') =>
      match fuel with
      | 0 => .error .fuel
      | fuel + 1 => (transFix nc n m0 m1 m2 m3 fuel T').map (fun p => (true, p.2))

/-- Function `Problem.apply_transposition_logic`. -/
def applyTranspositionLogic (nc n fuel : Nat) (T : Tensor) : Except Err (Bool × Tensor) :=
  exceptFoldl
    (fun acc m =>
      match transFix nc n m.1 m.2.1 m.2.2.1 m.2.2.2 fuel acc.2 with
      | .error e => .error e
      | .ok (ch, T') => .ok (acc.1 || ch, T'))
    (lowerPositives nc n T) (false, T)

/-- Combinations of `k` elements of a list, in the order produced by
`itertools.combinations`. -/
def combos {α : Type} : List α → Nat → List (List α)
  | _, 0 => [[]]
  | [], _ + 1 => []
  | x :: xs, k + 1 => (combos xs k).map (fun c => x :: c) ++ combos xs (k + 1)

/-- Indices of the neutral cells of a line (`openings`). -/
def lineOpenings (n : Nat) (line : Nat → RelationState) : List Nat :=
  (List.range n).filter (fun j => line j = .neutral)

/-- The candidate lines of `step_apply_pseudo_true`, grouped by their count
of openings: slot `idx` holds the lines with `idx + 2` neutral cells that
pass the scan filter. -/
def ptCandidates (n : Nat) (lineOf : Nat → Nat → RelationState) :
    List (List (Nat × List Nat)) :=
  (List.range (n / 2 - 1)).map (fun idx =>
    (List.range n).filterMap (fun i =>
      let c := countTypes n (lineOf i)
      if c.1 = 1 ∨ c.2.2 ≤ 1 ∨ 2 * c.2.2 > n then none
      else if c.2.2 = idx + 2 then some (i, lineOpenings n (lineOf i)) else none))

/-- Row phase of `Problem.step_apply_pseudo_true`: tiered search for a group
of rows confined to a matching set of columns; the write order inside one
combination follows the deduplicated union list (the source iterates a
Python set, whose order does not affect the outcome because every write
stores `negative`). -/
def ptRowsPhase (n : Nat) (t : Tbl) : Bool × Tbl :=
  let cands := ptCandidates n (fun i j => getC t i j)
  let r :=
    cands.enum.foldl
      (fun (st : Bool × Tbl × List (Nat × List Nat)) p =>
        if st.1 then st
        else
          let cum := st.2.2 ++ p.2
          let nOpen := p.1 + 2
          if cum.length < nOpen then (st.1, st.2.1, cum)
          else
            (combos cum nOpen).foldl
              (fun st2 (combo : List (Nat × List Nat)) =>
                let comboIdxs : List Nat := combo.map (fun q => q.1)
                let comboCols := (combo.flatMap (fun q => q.2)).dedup
                if comboCols.length > nOpen then st2
                else
                  (List.range n).foldl
                    (fun (st3 : Bool × Tbl × List (Nat × List Nat)) i =>
                      if i ∈ comboIdxs then st3
                      else
                        comboCols.foldl
                          (fun (st4 : Bool × Tbl × List (Nat × List Nat)) j =>
                            if getC st4.2.1 i j = .neutral then
                              (true, setC st4.2.1 i j .negative, st4.2.2)
                            else st4)
                          st3)
                    st2)
              (st.1, st.2.1, cum))
      (false, t, [])
  (r.1, r.2.1)

/-- Column phase of `Problem.step_apply_pseudo_true` (mirror of the row
phase over the transposed access pattern). -/
def ptColsPhase (n : Nat) (t : Tbl) : Bool × Tbl :=
  let cands := ptCandidates n (fun i j => getC t j i)
  let r :=
    cands.enum.foldl
      (fun (st : Bool × Tbl × List (Nat × List Nat)) p =>
        if st.1 then st
        else
          let cum := st.2.2 ++ p.2
          let nOpen := p.1 + 2
          if cum.length < nOpen then (st.1, st.2.1, cum)
          else
            (combos cum nOpen).foldl
              (fun st2 (combo : List (Nat × List Nat)) =>
                let comboIdxs : List Nat := combo.map (fun q => q.1)
                let comboRows := (combo.flatMap (fun q => q.2)).dedup
                if comboRows.length > nOpen then st2
                else
                  (List.range n).foldl
                    (fun (st3 : Bool × Tbl × List (Nat × List Nat)) i =>
                      if i ∈ comboIdxs then st3
                      else
                        comboRows.foldl
                          (fun (st4 : Bool × Tbl × List (Nat × List Nat)) j =>
                            if getC st4.2.1 j i = .neutral then
                              (true, setC st4.2.1 j i .negative, st4.2.2)
                            else st4)
                          st3)
                    st2)
              (st.1, st.2.1, cum))
      (false, t, [])
  (r.1, r.2.1)

/-- Function `Problem.step_apply_pseudo_true` on a single table. -/
def stepApplyPseudoTrue (n : Nat) (t : Tbl) : Bool × Tbl :=
  let r := ptRowsPhase n t
  let c := ptColsPhase n r.2
  (r.1 || c.1, c.2)

/-- Function `Problem.apply_pseudo_true` over the whole tensor. -/
def applyPseudoTrue (nc n : Nat) (T : Tensor) : Bool × Tensor :=
  (tableKeys nc).foldl
    (fun acc xy =>
      let r := stepApplyPseudoTrue n (extractTbl acc.2 xy.1 xy.2)
      (acc.1 || r.1, writeTbl acc.2 xy.1 xy.2 r.2))
    (false, T)

/-- Negative row indices of a column, or `none` when the column holds a
positive (in which case `step_apply_cross_elimination` skips it). -/
def crossColInfo (n : Nat) (t : Tbl) (c : Nat) : Option (List Nat) :=
  if (List.range n).any (fun i => getC t i c = .positive) then none
  else some ((List.range n).filter (fun i => getC t i c = .negative))

/-- Function `Problem.step_apply_cross_elimination`: the column pairs of two
tables whose joint negative coverage spans all `n` rows. -/
def stepApplyCrossElimination (n : Nat) (ta tb : Tbl) : List (Nat × Nat) :=
  (List.range n).flatMap (fun ca =>
    match crossColInfo n ta ca with
    | none => []
    | some negA =>
      (List.range n).filterMap (fun cb =>
        match crossColInfo n tb cb with
        | none => none
        | some negB =>
          if (negA ++ negB).dedup.length = n then some (ca, cb) else none))

/-- Unordered pairs of list elements in the order of
`itertools.combinations(l, 2)`. -/
def pairsOf {α : Type} : List α → List (α × α)
  | [] => []
  | x :: xs => (xs.map (fun y => (x, y))) ++ pairsOf xs

/-- Function `Problem.apply_cross_elimination`. -/
def applyCrossElimination (nc n : Nat) (T : Tensor) : Bool × Tensor :=
  (List.range nc).foldl
    (fun acc i =>
      (pairsOf (List.range nc)).foldl
        (fun acc jk =>
          if i = jk.1 ∨ i = jk.2 then acc
          else
            let elims :=
              stepApplyCrossElimination n (extractTbl acc.2 i jk.1) (extractTbl acc.2 i jk.2)
            elims.foldl
              (fun (acc : Bool × Tensor) p =>
                let acc1 :=
                  if getT acc.2 jk.1 jk.2 p.1 p.2 = .neutral then
                    (true, setT acc.2 jk.1 jk.2 p.1 p.2 .negative)
                  else acc
                if getT acc1.2 jk.2 jk.1 p.2 p.1 = .neutral then
                  (true, setT acc1.2 jk.2 jk.1 p.2 p.1 .negative)
                else acc1)
              acc)
        acc)
    (false, T)

end LogicalSolver

namespace LogicalSolver

/-- A position `(category_index, item_index)`. -/
abbrev Item := Nat × Nat

/-- A clue conclusion `(pos1, pos2, value)`. -/
abbrev Conclusion := Item × Item × RelationState

/-- The solver variants of `clue.py` that the claims exercise
(`VagueGreaterClue` is outside the scope of the claims and is not
embedded). -/
inductive ClueSolver where
  | unknown
  | equivalence (item1 item2 : Item)
  | uniqueness (items : List Item)
  | eitherOf (primary option1 option2 : Item) (nItem : Nat)
  | pairEqual (p1a p1b p2a p2b : Item) (nItem : Nat)
  | exactGreater (itemMore itemLess : Item) (catAxis diff nItem : Nat)
deriving DecidableEq, Repr

/-- The relation value of entry `k` of a query-response list. -/
def respVal (resp : List (Item × Item × RelationState)) (k : Nat) : RelationState :=
  (resp.getD k ((0, 0), (0, 0), .neutral)).2.2

/-- The index of the last positive entry among the first `n` values of a
line, the way the scan loops of `clue.py` keep overwriting
`*_positive_relation`. -/
def posScan (n : Nat) (f : Nat → RelationState) : Option Nat :=
  (List.range n).foldl (fun acc i => if f i = .positive then some i else acc) none

/-- Method `relation_queries` of each solver variant. -/
def ClueSolver.relationQueries : ClueSolver → List (Item × Item)
  | .unknown => []
  | .equivalence _ _ => []
  | .uniqueness _ => []
  | .eitherOf p o1 o2 _ => [(p, o1), (p, o2)]
  | .pairEqual a b c d _ => [(a, c), (a, d), (b, c), (b, d)]
  | .exactGreater more less axis _ n =>
    (List.range n).map (fun i => (less, (axis, i))) ++
      (List.range n).map (fun i => (more, (axis, i)))

/-- Method `draw_clue_conclusions` of each solver variant.  In the final
branch of `exactGreater` the source tests membership of the Python value
`i - diff` in a set of naturals; a negative value is never a member, which
the guard `diff ≤ i` reproduces under truncated subtraction. -/
def ClueSolver.drawClueConclusions :
    ClueSolver → List (Item × Item × RelationState) → List Conclusion
  | .unknown, _ => []
  | .equivalence i1 i2, _ => [(i1, i2, .positive)]
  | .uniqueness items, _ => (pairsOf items).map (fun p => (p.1, p.2, .negative))
  | .eitherOf p o1 o2 n, resp =>
    if o1.1 = o2.1 then
      (List.range n).filterMap (fun i =>
        if i = o1.2 ∨ i = o2.2 then none
        else some (p, (o1.1, i), RelationState.negative))
    else
      let isO1 := respVal resp 0 = .positive ∨ respVal resp 1 = .negative
      let isO2 := respVal resp 1 = .positive ∨ respVal resp 0 = .negative
      let v1 : RelationState :=
        if isO1 then .positive else if isO2 then .negative else .neutral
      let v2 : RelationState :=
        if isO2 then .positive else if isO1 then .negative else .neutral
      [(p, o1, v1), (p, o2, v2), (o1, o2, .negative)]
  | .pairEqual a b c d n, resp =>
    if a.1 = b.1 then
      (c, d, RelationState.negative) ::
        (List.range n).flatMap (fun i =>
          if i = a.2 ∨ i = b.2 then []
          else [(c, (a.1, i), RelationState.negative), (d, (a.1, i), RelationState.negative)])
    else if c.1 = d.1 then
      (a, b, RelationState.negative) ::
        (List.range n).flatMap (fun i =>
          if i = c.2 ∨ i = d.2 then []
          else [(a, (c.1, i), RelationState.negative), (b, (c.1, i), RelationState.negative)])
    else
      let straight := respVal resp 0 = .positive ∨ respVal resp 1 = .negative ∨
        respVal resp 2 = .negative ∨ respVal resp 3 = .positive
      let crossM := respVal resp 0 = .negative ∨ respVal resp 1 = .positive ∨
        respVal resp 2 = .positive ∨ respVal resp 3 = .negative
      let vs : List RelationState :=
        if straight then [.positive, .negative, .negative, .positive]
        else if crossM then [.negative, .positive, .positive, .negative]
        else [.neutral, .neutral, .neutral, .neutral]
      [(a, b, .negative), (c, d, .negative),
        (a, c, vs.getD 0 .neutral), (a, d, vs.getD 1 .neutral),
        (b, c, vs.getD 2 .neutral), (b, d, vs.getD 3 .neutral)]
  | .exactGreater more less axis diff n, resp =>
    let base : List Conclusion :=
      if less.1 ≠ more.1 then [(less, more, .negative)] else []
    let lessPos := posScan n (fun i => respVal resp i)
    let morePos := posScan n (fun i => respVal resp (i + n))
    match lessPos, morePos with
    | some _, some _ => base
    | some i, none => base ++ [(more, (axis, i + diff), RelationState.positive)]
    | none, some i => base ++ [(less, (axis, i - diff), RelationState.positive)]
    | none, none =>
      let lessPoss := (List.range n).filter (fun i => respVal resp i = .neutral)
      let morePoss := (List.range n).filter (fun i => respVal resp (i + n) = .neutral)
      base ++ (List.range n).flatMap (fun i =>
        let lessVal : RelationState :=
          if (i + diff) ∈ morePoss then .neutral else .negative
        let moreVal : RelationState :=
          if diff ≤ i ∧ (i - diff) ∈ lessPoss then .neutral else .negative
        [(less, (axis, i), lessVal), (more, (axis, i), moreVal)])

/-- A clue (`Clue` in `clue.py`): raw text, item count, active flag and
solver variant. -/
structure Clue where
  text : String
  nItem : Nat
  active : Bool
  solver : ClueSolver
deriving DecidableEq, Repr

/-- Constructor `Clue.__init__`: a fresh clue is active with the `Unknown`
no-op solver. -/
def mkClue (text : String) (n : Nat) : Clue :=
  { text := text, nItem := n, active := true, solver := .unknown }

/-- One iteration of the update loop of `Problem.process_clue`: the
accumulator is `(any_changed, no_neutral, tensor)`. -/
def applyConclusion (acc : Bool × Bool × Tensor) (u : Conclusion) : Bool × Bool × Tensor :=
  if u.2.2 = .neutral then (acc.1, false, acc.2.2)
  else
    let x1 := u.1.1
    let r1 := u.1.2
    let x2 := u.2.1.1
    let r2 := u.2.1.2
    let v := u.2.2
    let a1 :=
      if getT acc.2.2 x1 x2 r1 r2 ≠ v then (true, acc.2.1, setT acc.2.2 x1 x2 r1 r2 v)
      else acc
    if getT a1.2.2 x2 x1 r2 r1 ≠ v then (true, a1.2.1, setT a1.2.2 x2 x1 r2 r1 v)
    else a1

/-- Function `Problem.process_clue`: query, conclude, write back (and the
transposes), and clear `active` once every produced conclusion is
non-neutral. -/
def processClue (T : Tensor) (c : Clue) : Bool × Tensor × Clue :=
  let results := c.solver.relationQueries.map
    (fun q => (q.1, q.2, getT T q.1.1 q.2.1 q.1.2 q.2.2))
  let updates := c.solver.drawClueConclusions results
  let r := updates.foldl applyConclusion (false, true, T)
  let c' : Clue := if 0 < updates.length ∧ r.2.1 then { c with active := false } else c
  (r.1, r.2.2, c')

/-- The loop body of `Problem.process_all_clues` over a concrete clue
list. -/
def processCluesList (T : Tensor) : List Clue → Bool × Tensor × List Clue
  | [] => (false, T, [])
  | c :: rest =>
    let r := processClue T c
    let rr := processCluesList r.2.1 rest
    (r.1 || rr.1, rr.2.1, r.2.2 :: rr.2.2)

/-- Function `Problem.process_all_clues`; iterating a `None` clue list
raises, which is the `noClues` failure. -/
def processAllClues (clues : Option (List Clue)) (T : Tensor) :
    Except Err (Bool × Tensor × List Clue) :=
  match clues with
  | none => .error .noClues
  | some l => .ok (processCluesList T l)

/-- Function `Problem.do_all_logic`: the four structural passes followed by
clue processing, reporting whether anything changed. -/
def doAllLogic (nc n fuel : Nat) (T : Tensor) (clues : Option (List Clue)) :
    Except Err (Bool × Tensor × List Clue) :=
  match applyExactlyOneLogic nc n fuel T with
  | .error e => .error e
  | .ok (c1, T1) =>
    match applyTranspositionLogic nc n fuel T1 with
    | .error e => .error e
    | .ok (c2, T2) =>
      let r3 := applyPseudoTrue nc n T2
      let r4 := applyCrossElimination nc n r3.2
      match processAllClues clues r4.2 with
      | .error e => .error e
      | .ok (c5, T5, cl) => .ok (c1 || c2 || r3.1 || r4.1 || c5, T5, cl)

/-- The `while any_changed` loop of `Problem.draw_conclusions`. -/
def drawLoop (nc n : Nat) : Nat → Tensor → Option (List Clue) → Except Err (Tensor × List Clue)
  | fuel, T, clues =>
    match doAllLogic nc n fuel T clues with
    | .error e => .error e
    | .ok (ch, T', cl') =>
      if ch then
        match fuel with
        | 0 => .error .fuel
        | fuel + 1 => drawLoop nc n fuel T' (some cl')
      else .ok (T', cl')

/-- The canonical category-pair keys of `Problem.__init__`, in insertion
order: row keys iterate `chain([0], reversed(range(2, n_categories)))` and
column keys iterate `range(1, n_categories - i)`. -/
def problemKeys (nc : Nat) : List (Nat × Nat) :=
  (([0] ++ ((List.range (nc - 2)).map (fun t => t + 2)).reverse).enum).flatMap
    (fun p => ((List.range (nc - p.1 - 1)).map (fun t => t + 1)).map (fun ck => (p.2, ck)))

/-- The state a `Problem` object owns: sizes, the user assignment grids and
the solved tensor (both keyed by canonical pair), and the optional clue
list. -/
structure ProblemState where
  nCategories : Nat
  nItems : Nat
  assign : (Nat × Nat) → Tbl
  solved : (Nat × Nat) → Tbl
  clues : Option (List Clue)

/-- Constructor `Problem.__init__` from clue texts (every grid neutral,
every clue starting with the `Unknown` solver). -/
def mkProblem (nc n : Nat) (clueTexts : Option (List String)) : ProblemState :=
  { nCategories := nc
    nItems := n
    assign := fun _ => List.replicate n (List.replicate n .neutral)
    solved := fun _ => List.replicate n (List.replicate n .neutral)
    clues := clueTexts.map (fun l => l.map (fun t => mkClue t n)) }

/-- The all-neutral combined tensor allocated at the top of
`draw_conclusions`. -/
def blankTensor (nc n : Nat) : Tensor :=
  List.replicate nc (List.replicate nc (List.replicate n (List.replicate n .neutral)))

/-- The seeding loop of `draw_conclusions`: copy every non-neutral user
assignment and its transpose into the combined tensor. -/
def seedTensor (st : ProblemState) : Tensor :=
  (problemKeys st.nCategories).foldl
    (fun T key =>
      (List.range st.nItems).foldl
        (fun T i =>
          (List.range st.nItems).foldl
            (fun T j =>
              let v := getC (st.assign key) i j
              if v ≠ .neutral then setT (setT T key.1 key.2 i j v) key.2 key.1 j i v
              else T)
            T)
        T)
    (blankTensor st.nCategories st.nItems)

/-- The identity-relation loop of `draw_conclusions`: every self-pair block
gets a positive diagonal and negative off-diagonal. -/
def initIdentity (nc n : Nat) (T : Tensor) : Tensor :=
  (List.range nc).foldl
    (fun T i =>
      (List.range n).foldl
        (fun T j =>
          (List.range n).foldl
            (fun T k =>
              if j = k then setT T i i j k .positive else setT T i i j k .negative)
            T)
        T)
    T

/-- Function `Problem.draw_conclusions`: rebuild the combined tensor, run
the fixpoint, and copy the per-key results into the solved tensor. -/
def drawConclusions (fuel : Nat) (st : ProblemState) : Except Err ProblemState :=
  match drawLoop st.nCategories st.nItems fuel
      (initIdentity st.nCategories st.nItems (seedTensor st)) st.clues with
  | .error e => .error e
  | .ok (Tf, cl) =>
    .ok { st with
      solved := fun k =>
        if k ∈ problemKeys st.nCategories then extractTbl Tf k.1 k.2 else st.solved k
      clues := some cl }

/-- Write one cell of one user assignment grid. -/
def setAssign (st : ProblemState) (key : Nat × Nat) (r c : Nat) (v : RelationState) :
    ProblemState :=
  { st with assign := fun k => if k = key then setC (st.assign key) r c v else st.assign k }

/-- Method `Problem.update`: reset a non-neutral cell to neutral (always
accepted), or set a neutral cell after checking the solved tensor for a
contradiction; every accepted update reruns `draw_conclusions`. -/
def update (fuel : Nat) (desired : Bool) (key : Nat × Nat) (r c : Nat)
    (st : ProblemState) : Except Err (Bool × ProblemState) :=
  let old := getC (st.assign key) r c
  if old = .neutral then
    let new : RelationState := if desired then .positive else .negative
    let sv := getC (st.solved key) r c
    if sv ≠ .neutral ∧ sv ≠ new then .ok (false, st)
    else
      match drawConclusions fuel (setAssign st key r c new) with
      | .error e => .error e
      | .ok st' => .ok (true, st')
  else
    match drawConclusions fuel (setAssign st key r c .neutral) with
    | .error e => .error e
    | .ok st' => .ok (true, st')

end LogicalSolver

namespace LogicalSolver

/-! Basic lemmas about cell reads and writes. -/

theorem getD_set_ne {α : Type} (l : List α) {i j : Nat} (x d : α) (h : i ≠ j) :
    (l.set i x).getD j d = l.getD j d := by
  simp [List.getD_eq_getElem?_getD, List.getElem?_set_ne h]

theorem getD_set_self {α : Type} (l : List α) {i : Nat} (x d : α) (h : i < l.length) :
    (l.set i x).getD i d = x := by
  simp [List.getD_eq_getElem?_getD, List.getElem?_set_self h]

theorem set_getD_self {α : Type} (l : List α) {i : Nat} (d : α) (h : i < l.length) :
    l.set i (l.getD i d) = l := by
  apply List.ext_getElem?
  intro j
  by_cases hj : j = i
  · subst hj
    rw [List.getElem?_set_self h, List.getD_eq_getElem l d h, List.getElem?_eq_getElem h]
  · rw [List.getElem?_set_ne (fun hh => hj hh.symm)]

theorem getC_setC_ne (t : Tbl) {i j a b : Nat} (v : RelationState)
    (h : ¬(a = i ∧ b = j)) : getC (setC t i j v) a b = getC t a b := by
  unfold getC setC
  by_cases hai : a = i
  · subst hai
    have hbj : b ≠ j := fun hb => h ⟨rfl, hb⟩
    by_cases hlen : a < t.length
    · rw [getD_set_self _ _ _ hlen, getD_set_ne _ _ _ (fun hh => hbj hh.symm)]
    · rw [List.set_eq_of_length_le (by omega)]
  · rw [getD_set_ne _ _ _ (fun hh => hai hh.symm)]

theorem getC_setC_self (t : Tbl) {i j : Nat} (v : RelationState)
    (hi : i < t.length) (hj : j < (t.getD i []).length) :
    getC (setC t i j v) i j = v := by
  unfold getC setC
  rw [getD_set_self _ _ _ hi, getD_set_self _ _ _ hj]

theorem writeTbl_oob (T : Tensor) {x y : Nat} (t : Tbl)
    (h : T.length ≤ x ∨ (T.getD x []).length ≤ y) : writeTbl T x y t = T := by
  unfold writeTbl
  rcases h with h | h
  · exact List.set_eq_of_length_le h
  · rw [List.set_eq_of_length_le h]
    by_cases hx : x < T.length
    · exact set_getD_self _ _ hx
    · exact List.set_eq_of_length_le (by omega)

theorem extractTbl_writeTbl_ne (T : Tensor) {x y a b : Nat} (t : Tbl)
    (h : ¬(a = x ∧ b = y)) : extractTbl (writeTbl T x y t) a b = extractTbl T a b := by
  unfold extractTbl writeTbl
  by_cases hax : a = x
  · subst hax
    have hby : b ≠ y := fun hb => h ⟨rfl, hb⟩
    by_cases hlen : a < T.length
    · rw [getD_set_self _ _ _ hlen, getD_set_ne _ _ _ (fun hh => hby hh.symm)]
    · rw [List.set_eq_of_length_le (by omega)]
  · rw [getD_set_ne _ _ _ (fun hh => hax hh.symm)]

theorem extractTbl_writeTbl_self (T : Tensor) {x y : Nat} (t : Tbl)
    (hx : x < T.length) (hy : y < (T.getD x []).length) :
    extractTbl (writeTbl T x y t) x y = t := by
  unfold extractTbl writeTbl
  rw [getD_set_self _ _ _ hx, getD_set_self _ _ _ hy]

theorem getT_setT_ne (T : Tensor) {x y i j a b c d : Nat} (v : RelationState)
    (h : ¬(a = x ∧ b = y ∧ c = i ∧ d = j)) :
    getT (setT T x y i j v) a b c d = getT T a b c d := by
  unfold getT setT
  by_cases hab : a = x ∧ b = y
  · obtain ⟨rfl, rfl⟩ := hab
    have hcd : ¬(c = i ∧ d = j) := fun hh => h ⟨rfl, rfl, hh⟩
    by_cases hb : a < T.length ∧ b < (T.getD a []).length
    · rw [extractTbl_writeTbl_self _ _ hb.1 hb.2, getC_setC_ne _ _ hcd]
    · rw [writeTbl_oob _ _ (by omega)]
  · rw [extractTbl_writeTbl_ne _ _ hab]

/-- Well-formedness of a table: an `n` by `n` grid. -/
def WFTbl (n : Nat) (t : Tbl) : Prop :=
  t.length = n ∧ ∀ r ∈ t, r.length = n

/-- Well-formedness of the combined tensor: `nc` by `nc` blocks of `n` by
`n` tables. -/
def WFTensor (nc n : Nat) (T : Tensor) : Prop :=
  T.length = nc ∧ ∀ row ∈ T, row.length = nc ∧ ∀ tb ∈ row, WFTbl n tb

theorem WFTbl.rowLength {n : Nat} {t : Tbl} (h : WFTbl n t) {i : Nat} (hi : i < n) :
    (t.getD i []).length = n := by
  have h1 := h.1
  have hlen : i < t.length := by omega
  rw [List.getD_eq_getElem t [] hlen]
  exact h.2 _ (List.getElem_mem hlen)

theorem WFTensor.rowLen {nc n : Nat} {T : Tensor} (h : WFTensor nc n T) {x : Nat}
    (hx : x < nc) : (T.getD x []).length = nc := by
  have h1 := h.1
  have hlen : x < T.length := by omega
  rw [List.getD_eq_getElem T [] hlen]
  exact (h.2 _ (List.getElem_mem hlen)).1

theorem WFTensor.extract {nc n : Nat} {T : Tensor} (h : WFTensor nc n T) {x y : Nat}
    (hx : x < nc) (hy : y < nc) : WFTbl n (extractTbl T x y) := by
  have h1 := h.1
  have hlen : x < T.length := by omega
  have hrowlen := WFTensor.rowLen h hx
  have hrow : y < (T.getD x []).length := by omega
  unfold extractTbl
  rw [List.getD_eq_getElem T [] hlen] at hrow ⊢
  rw [List.getD_eq_getElem _ [] hrow]
  exact (h.2 _ (List.getElem_mem hlen)).2 _ (List.getElem_mem hrow)

theorem WFTbl.setC {n : Nat} {t : Tbl} (h : WFTbl n t) (i j : Nat) (v : RelationState) :
    WFTbl n (setC t i j v) := by
  unfold LogicalSolver.setC
  by_cases hi : i < t.length
  · refine ⟨by rw [List.length_set]; exact h.1, ?_⟩
    intro r hr
    rcases List.mem_or_eq_of_mem_set hr with hmem | rfl
    · exact h.2 _ hmem
    · rw [List.length_set, List.getD_eq_getElem t [] hi]
      exact h.2 _ (List.getElem_mem hi)
  · rw [List.set_eq_of_length_le (by omega)]
    exact h

theorem WFTensor.writeTbl {nc n : Nat} {T : Tensor} (h : WFTensor nc n T)
    {t : Tbl} (ht : WFTbl n t) (x y : Nat) : WFTensor nc n (writeTbl T x y t) := by
  unfold LogicalSolver.writeTbl
  by_cases hx : x < T.length
  · refine ⟨by rw [List.length_set]; exact h.1, ?_⟩
    intro row hrow
    rcases List.mem_or_eq_of_mem_set hrow with hmem | rfl
    · exact h.2 _ hmem
    · have hold := h.2 _ (List.getElem_mem hx)
      rw [List.getD_eq_getElem T [] hx]
      refine ⟨by rw [List.length_set]; exact hold.1, ?_⟩
      intro tb htb
      rcases List.mem_or_eq_of_mem_set htb with hmem2 | rfl
      · exact hold.2 _ hmem2
      · exact ht
  · rw [List.set_eq_of_length_le (by omega)]
    exact h

theorem WFTensor.setT {nc n : Nat} {T : Tensor} (h : WFTensor nc n T)
    (x y i j : Nat) (v : RelationState) : WFTensor nc n (setT T x y i j v) := by
  unfold LogicalSolver.setT
  by_cases hx : x < nc
  · by_cases hy : y < nc
    · exact h.writeTbl ((h.extract hx hy).setC i j v) x y
    · rw [writeTbl_oob]
      · exact h
      · right
        rw [h.rowLen hx]
        omega
  · rw [writeTbl_oob]
    · exact h
    · left
      have h1 := h.1
      omega

theorem getT_setT_self {nc n : Nat} {T : Tensor} (h : WFTensor nc n T)
    {x y i j : Nat} (v : RelationState)
    (hx : x < nc) (hy : y < nc) (hi : i < n) (hj : j < n) :
    getT (setT T x y i j v) x y i j = v := by
  have h1 := h.1
  have hxl : x < T.length := by omega
  have hyl : y < (T.getD x []).length := by rw [h.rowLen hx]; omega
  have hwt := h.extract hx hy
  have hw1 := hwt.1
  have hil : i < (extractTbl T x y).length := by omega
  have hjl : j < ((extractTbl T x y).getD i []).length := by rw [hwt.rowLength hi]; omega
  unfold getT setT
  rw [extractTbl_writeTbl_self _ _ hxl hyl]
  exact getC_setC_self _ _ hil hjl

end LogicalSolver

namespace LogicalSolver

/-! Monotonicity machinery: the structural passes write only neutral
cells. -/

/-- Every non-neutral cell of `t` keeps its value in `t'`. -/
def PreservesTbl (t t' : Tbl) : Prop :=
  ∀ i j, getC t i j ≠ .neutral → getC t' i j = getC t i j

/-- Every non-neutral cell of `T` keeps its value in `T'`. -/
def PreservesT (T T' : Tensor) : Prop :=
  ∀ x y i j, getT T x y i j ≠ .neutral → getT T' x y i j = getT T x y i j

theorem PreservesTbl.refl (t : Tbl) : PreservesTbl t t := fun _ _ _ => Eq.refl _

theorem PreservesTbl.chain {a b c : Tbl} (h1 : PreservesTbl a b) (h2 : PreservesTbl b c) :
    PreservesTbl a c := by
  intro i j hn
  have e1 := h1 i j hn
  have e2 := h2 i j (by rw [e1]; exact hn)
  rw [e2, e1]

theorem PreservesT.rfl (T : Tensor) : PreservesT T T := fun _ _ _ _ _ => Eq.refl _

theorem PreservesT.trans {a b c : Tensor} (h1 : PreservesT a b) (h2 : PreservesT b c) :
    PreservesT a c := by
  intro x y i j hn
  have e1 := h1 x y i j hn
  have e2 := h2 x y i j (by rw [e1]; exact hn)
  rw [e2, e1]

theorem preservesTbl_setC {t : Tbl} {i j : Nat} (v : RelationState)
    (h : getC t i j = .neutral) : PreservesTbl t (setC t i j v) := by
  intro a b hn
  by_cases hab : a = i ∧ b = j
  · obtain ⟨rfl, rfl⟩ := hab
    exact absurd h hn
  · exact getC_setC_ne _ _ hab

theorem preservesT_setT {T : Tensor} {x y i j : Nat} (v : RelationState)
    (h : getT T x y i j = .neutral) : PreservesT T (setT T x y i j v) := by
  intro a b c d hn
  by_cases hab : a = x ∧ b = y ∧ c = i ∧ d = j
  · obtain ⟨rfl, rfl, rfl, rfl⟩ := hab
    exact absurd h hn
  · exact getT_setT_ne _ _ hab

theorem preservesT_writeTbl {T : Tensor} {x y : Nat} {t' : Tbl}
    (h : PreservesTbl (extractTbl T x y) t') : PreservesT T (writeTbl T x y t') := by
  intro a b c d hn
  by_cases hab : a = x ∧ b = y
  · obtain ⟨rfl, rfl⟩ := hab
    by_cases hbnd : a < T.length ∧ b < (T.getD a []).length
    · unfold getT
      rw [extractTbl_writeTbl_self _ _ hbnd.1 hbnd.2]
      exact h c d hn
    · rw [writeTbl_oob _ _ (by omega)]
  · unfold getT
    rw [extractTbl_writeTbl_ne _ _ hab]

/-- Fold a reflexive transitive relation through `List.foldl`. -/
theorem foldl_rel {α β : Type} {R : α → α → Prop} (hrefl : ∀ a, R a a)
    (htrans : ∀ {a b c : α}, R a b → R b c → R a c) (f : α → β → α) :
    ∀ (l : List β), (∀ a b, b ∈ l → R a (f a b)) → ∀ a, R a (l.foldl f a) := by
  intro l
  induction l with
  | nil => intro _ a; exact hrefl a
  | cons x xs ih =>
    intro h a
    exact htrans (h a x (by simp)) (ih (fun a b hb => h a b (by simp [hb])) _)

/-- Fold a reflexive transitive relation through `exceptFoldl`. -/
theorem exceptFoldl_rel {α β : Type} {R : α → α → Prop} (hrefl : ∀ a, R a a)
    (htrans : ∀ {a b c : α}, R a b → R b c → R a c) (f : α → β → Except Err α) :
    ∀ (l : List β), (∀ a b a', b ∈ l → f a b = .ok a' → R a a') →
      ∀ a a', exceptFoldl f l a = .ok a' → R a a' := by
  intro l
  induction l with
  | nil =>
    intro _ a a' heq
    unfold exceptFoldl at heq
    cases heq
    exact hrefl a
  | cons x xs ih =>
    intro h a a' heq
    unfold exceptFoldl at heq
    cases hx : f a x with
    | error e => rw [hx] at heq; cases heq
    | ok a1 =>
      rw [hx] at heq
      exact htrans (h a x a1 (by simp) hx) (ih (fun a b a' hb => h a b a' (by simp [hb])) _ _ heq)

theorem exactlyOneRowBody_preserves (n p g i : Nat) (t : Tbl) (j : Nat) :
    PreservesTbl t (exactlyOneRowBody n p g i t j) := by
  unfold exactlyOneRowBody
  split
  · exact PreservesTbl.refl t
  · next hguard =>
    have hneu : getC t i j = .neutral := by
      by_cases hc : getC t i j = .neutral
      · exact hc
      · exact absurd hc (by simpa using hguard)
    split
    · exact preservesTbl_setC _ hneu
    · split
      · exact preservesTbl_setC _ hneu
      · exact PreservesTbl.refl t

theorem exactlyOneColBody_preserves (n p g j : Nat) (t : Tbl) (i : Nat) :
    PreservesTbl t (exactlyOneColBody n p g j t i) := by
  unfold exactlyOneColBody
  split
  · exact PreservesTbl.refl t
  · next hguard =>
    have hneu : getC t i j = .neutral := by
      by_cases hc : getC t i j = .neutral
      · exact hc
      · exact absurd hc (by simpa using hguard)
    split
    · exact preservesTbl_setC _ hneu
    · split
      · exact preservesTbl_setC _ hneu
      · exact PreservesTbl.refl t

theorem stepExactlyOneRows_preserves (n : Nat) (acc : Bool × Tbl) :
    PreservesTbl acc.2 (stepExactlyOneRows n acc).2 := by
  unfold stepExactlyOneRows
  refine foldl_rel (R := fun (p q : Bool × Tbl) => PreservesTbl p.2 q.2)
    (fun p => PreservesTbl.refl _) (fun h1 h2 => h1.chain h2) _ _ ?_ acc
  intro a b _
  dsimp only
  split
  · exact PreservesTbl.refl _
  · exact foldl_rel (R := PreservesTbl) PreservesTbl.refl (fun h1 h2 => h1.chain h2) _ _
      (fun t j _ => exactlyOneRowBody_preserves n _ _ _ t j) a.2

theorem stepExactlyOneCols_preserves (n : Nat) (acc : Bool × Tbl) :
    PreservesTbl acc.2 (stepExactlyOneCols n acc).2 := by
  unfold stepExactlyOneCols
  refine foldl_rel (R := fun (p q : Bool × Tbl) => PreservesTbl p.2 q.2)
    (fun p => PreservesTbl.refl _) (fun h1 h2 => h1.chain h2) _ _ ?_ acc
  intro a b _
  dsimp only
  split
  · exact PreservesTbl.refl _
  · exact foldl_rel (R := PreservesTbl) PreservesTbl.refl (fun h1 h2 => h1.chain h2) _ _
      (fun t i _ => exactlyOneColBody_preserves n _ _ _ t i) a.2

theorem stepExactlyOne_preserves (n : Nat) (t : Tbl) :
    PreservesTbl t (stepExactlyOne n t).2 := by
  unfold stepExactlyOne
  exact (stepExactlyOneRows_preserves n (false, t)).chain
    (stepExactlyOneCols_preserves n _)

theorem exactlyOneFix_preserves (n : Nat) :
    ∀ (fuel : Nat) (t : Tbl) (b : Bool) (t' : Tbl),
      exactlyOneFix n fuel t = .ok (b, t') → PreservesTbl t t' := by
  intro fuel
  induction fuel with
  | zero =>
    intro t b t' heq
    unfold exactlyOneFix at heq
    cases hs : stepExactlyOne n t with
    | mk ch t1 =>
      rw [hs] at heq
      cases ch with
      | false =>
        cases heq
        have := stepExactlyOne_preserves n t
        rw [hs] at this
        exact this
      | true => dsimp only at heq; cases heq
  | succ f ih =>
    intro t b t' heq
    unfold exactlyOneFix at heq
    cases hs : stepExactlyOne n t with
    | mk ch t1 =>
      rw [hs] at heq
      cases ch with
      | false =>
        cases heq
        have := stepExactlyOne_preserves n t
        rw [hs] at this
        exact this
      | true =>
        dsimp only at heq
        cases hr : exactlyOneFix n f t1 with
        | error e => rw [hr] at heq; cases heq
        | ok p =>
          rw [hr] at heq
          cases heq
          have hstep := stepExactlyOne_preserves n t
          rw [hs] at hstep
          exact hstep.chain (ih t1 p.1 p.2 (by rw [hr]))

theorem applyExactlyOneLogic_preserves {nc n fuel : Nat} {T : Tensor} {b : Bool}
    {T' : Tensor} (h : applyExactlyOneLogic nc n fuel T = .ok (b, T')) :
    PreservesT T T' := by
  unfold applyExactlyOneLogic at h
  have := exceptFoldl_rel (R := fun (p q : Bool × Tensor) => PreservesT p.2 q.2)
    (fun p => PreservesT.rfl _) (fun h1 h2 => h1.trans h2) _ _ ?_ _ _ h
  · exact this
  · intro a xy a' _ heq
    cases hf : exactlyOneFix n fuel (extractTbl a.2 xy.1 xy.2) with
    | error e => rw [hf] at heq; cases heq
    | ok p =>
      rw [hf] at heq
      cases p with
      | mk ch t =>
        dsimp only at heq
        cases heq
        exact preservesT_writeTbl (exactlyOneFix_preserves n fuel _ ch t hf)

end LogicalSolver

namespace LogicalSolver

theorem condWrite_preserves (p : Bool × Tensor) (x y i j : Nat) (v : RelationState) :
    PreservesT p.2 ((if getT p.2 x y i j = .neutral then (true, setT p.2 x y i j v) else p).2) := by
  split
  · next h => exact preservesT_setT v h
  · exact PreservesT.rfl _

theorem stepApplyTranspositionLogic_preserves (nc n m0 m1 m2 m3 : Nat) (T : Tensor) :
    PreservesT T (stepApplyTranspositionLogic nc n m0 m1 m2 m3 T).2 := by
  unfold stepApplyTranspositionLogic
  refine foldl_rel (R := fun (p q : Bool × Tensor) => PreservesT p.2 q.2)
    (fun p => PreservesT.rfl _) (fun h1 h2 => h1.trans h2) _ _ ?_ (false, T)
  intro a i _
  dsimp only
  split
  · refine foldl_rel (R := fun (p q : Bool × Tensor) => PreservesT p.2 q.2)
      (fun p => PreservesT.rfl _) (fun h1 h2 => h1.trans h2) _ _ ?_ a
    intro a2 j _
    dsimp only
    split
    · exact PreservesT.rfl _
    · refine foldl_rel (R := fun (p q : Bool × Tensor) => PreservesT p.2 q.2)
        (fun p => PreservesT.rfl _) (fun h1 h2 => h1.trans h2) _ _ ?_ a2
      intro a3 k _
      dsimp only
      split
      · exact PreservesT.rfl _
      · exact (condWrite_preserves a3 m1 j m3 k _).trans (condWrite_preserves _ j m1 k m3 _)
  · split
    · refine foldl_rel (R := fun (p q : Bool × Tensor) => PreservesT p.2 q.2)
        (fun p => PreservesT.rfl _) (fun h1 h2 => h1.trans h2) _ _ ?_ a
      intro a2 j _
      dsimp only
      split
      · exact PreservesT.rfl _
      · refine foldl_rel (R := fun (p q : Bool × Tensor) => PreservesT p.2 q.2)
          (fun p => PreservesT.rfl _) (fun h1 h2 => h1.trans h2) _ _ ?_ a2
        intro a3 k _
        dsimp only
        split
        · exact PreservesT.rfl _
        · exact (condWrite_preserves a3 m0 j m2 k _).trans (condWrite_preserves _ j m0 k m2 _)
    · exact PreservesT.rfl _

theorem transFix_preserves (nc n m0 m1 m2 m3 : Nat) :
    ∀ (fuel : Nat) (T : Tensor) (b : Bool) (T' : Tensor),
      transFix nc n m0 m1 m2 m3 fuel T = .ok (b, T') → PreservesT T T' := by
  intro fuel
  induction fuel with
  | zero =>
    intro T b T' heq
    unfold transFix at heq
    cases hs : stepApplyTranspositionLogic nc n m0 m1 m2 m3 T with
    | mk ch T1 =>
      rw [hs] at heq
      cases ch with
      | false =>
        cases heq
        have := stepApplyTranspositionLogic_preserves nc n m0 m1 m2 m3 T
        rw [hs] at this
        exact this
      | true => dsimp only at heq; cases heq
  | succ f ih =>
    intro T b T' heq
    unfold transFix at heq
    cases hs : stepApplyTranspositionLogic nc n m0 m1 m2 m3 T with
    | mk ch T1 =>
      rw [hs] at heq
      cases ch with
      | false =>
        cases heq
        have := stepApplyTranspositionLogic_preserves nc n m0 m1 m2 m3 T
        rw [hs] at this
        exact this
      | true =>
        dsimp only at heq
        cases hr : transFix nc n m0 m1 m2 m3 f T1 with
        | error e => rw [hr] at heq; cases heq
        | ok p =>
          rw [hr] at heq
          cases heq
          have hstep := stepApplyTranspositionLogic_preserves nc n m0 m1 m2 m3 T
          rw [hs] at hstep
          exact hstep.trans (ih T1 p.1 p.2 (by rw [hr]))

theorem applyTranspositionLogic_preserves {nc n fuel : Nat} {T : Tensor} {b : Bool}
    {T' : Tensor} (h : applyTranspositionLogic nc n fuel T = .ok (b, T')) :
    PreservesT T T' := by
  unfold applyTranspositionLogic at h
  have := exceptFoldl_rel (R := fun (p q : Bool × Tensor) => PreservesT p.2 q.2)
    (fun p => PreservesT.rfl _) (fun h1 h2 => h1.trans h2) _ _ ?_ _ _ h
  · exact this
  · intro a m a' _ heq
    cases hf : transFix nc n m.1 m.2.1 m.2.2.1 m.2.2.2 fuel a.2 with
    | error e => rw [hf] at heq; cases heq
    | ok p =>
      rw [hf] at heq
      cases p with
      | mk ch T2 =>
        dsimp only at heq
        cases heq
        exact transFix_preserves nc n m.1 m.2.1 m.2.2.1 m.2.2.2 fuel a.2 ch T2 hf

theorem ptRowsPhase_preserves (n : Nat) (t : Tbl) :
    PreservesTbl t (ptRowsPhase n t).2 := by
  unfold ptRowsPhase
  dsimp only
  refine foldl_rel
    (R := fun (p q : Bool × Tbl × List (Nat × List Nat)) => PreservesTbl p.2.1 q.2.1)
    (fun p => PreservesTbl.refl _) (fun h1 h2 => h1.chain h2) _ _ ?_ (false, t, [])
  intro st p _
  dsimp only
  split
  · exact PreservesTbl.refl _
  · split
    · exact PreservesTbl.refl _
    · refine foldl_rel
        (R := fun (p q : Bool × Tbl × List (Nat × List Nat)) => PreservesTbl p.2.1 q.2.1)
        (fun p => PreservesTbl.refl _) (fun h1 h2 => h1.chain h2) _ _ ?_
        (st.1, st.2.1, st.2.2 ++ p.2)
      intro st2 combo _
      dsimp only
      split
      · exact PreservesTbl.refl _
      · refine foldl_rel
          (R := fun (p q : Bool × Tbl × List (Nat × List Nat)) => PreservesTbl p.2.1 q.2.1)
          (fun p => PreservesTbl.refl _) (fun h1 h2 => h1.chain h2) _ _ ?_ st2
        intro st3 i _
        dsimp only
        split
        · exact PreservesTbl.refl _
        · refine foldl_rel
            (R := fun (p q : Bool × Tbl × List (Nat × List Nat)) => PreservesTbl p.2.1 q.2.1)
            (fun p => PreservesTbl.refl _) (fun h1 h2 => h1.chain h2) _ _ ?_ st3
          intro st4 j _
          dsimp only
          split
          · next hg => exact preservesTbl_setC _ hg
          · exact PreservesTbl.refl _

theorem ptColsPhase_preserves (n : Nat) (t : Tbl) :
    PreservesTbl t (ptColsPhase n t).2 := by
  unfold ptColsPhase
  dsimp only
  refine foldl_rel
    (R := fun (p q : Bool × Tbl × List (Nat × List Nat)) => PreservesTbl p.2.1 q.2.1)
    (fun p => PreservesTbl.refl _) (fun h1 h2 => h1.chain h2) _ _ ?_ (false, t, [])
  intro st p _
  dsimp only
  split
  · exact PreservesTbl.refl _
  · split
    · exact PreservesTbl.refl _
    · refine foldl_rel
        (R := fun (p q : Bool × Tbl × List (Nat × List Nat)) => PreservesTbl p.2.1 q.2.1)
        (fun p => PreservesTbl.refl _) (fun h1 h2 => h1.chain h2) _ _ ?_
        (st.1, st.2.1, st.2.2 ++ p.2)
      intro st2 combo _
      dsimp only
      split
      · exact PreservesTbl.refl _
      · refine foldl_rel
          (R := fun (p q : Bool × Tbl × List (Nat × List Nat)) => PreservesTbl p.2.1 q.2.1)
          (fun p => PreservesTbl.refl _) (fun h1 h2 => h1.chain h2) _ _ ?_ st2
        intro st3 i _
        dsimp only
        split
        · exact PreservesTbl.refl _
        · refine foldl_rel
            (R := fun (p q : Bool × Tbl × List (Nat × List Nat)) => PreservesTbl p.2.1 q.2.1)
            (fun p => PreservesTbl.refl _) (fun h1 h2 => h1.chain h2) _ _ ?_ st3
          intro st4 j _
          dsimp only
          split
          · next hg => exact preservesTbl_setC _ hg
          · exact PreservesTbl.refl _

theorem stepApplyPseudoTrue_preserves (n : Nat) (t : Tbl) :
    PreservesTbl t (stepApplyPseudoTrue n t).2 := by
  unfold stepApplyPseudoTrue
  exact (ptRowsPhase_preserves n t).chain (ptColsPhase_preserves n _)

theorem applyPseudoTrue_preserves (nc n : Nat) (T : Tensor) :
    PreservesT T (applyPseudoTrue nc n T).2 := by
  unfold applyPseudoTrue
  refine foldl_rel (R := fun (p q : Bool × Tensor) => PreservesT p.2 q.2)
    (fun p => PreservesT.rfl _) (fun h1 h2 => h1.trans h2) _ _ ?_ (false, T)
  intro a xy _
  dsimp only
  exact preservesT_writeTbl (stepApplyPseudoTrue_preserves n _)

theorem applyCrossElimination_preserves (nc n : Nat) (T : Tensor) :
    PreservesT T (applyCrossElimination nc n T).2 := by
  unfold applyCrossElimination
  refine foldl_rel (R := fun (p q : Bool × Tensor) => PreservesT p.2 q.2)
    (fun p => PreservesT.rfl _) (fun h1 h2 => h1.trans h2) _ _ ?_ (false, T)
  intro a i _
  dsimp only
  refine foldl_rel (R := fun (p q : Bool × Tensor) => PreservesT p.2 q.2)
    (fun p => PreservesT.rfl _) (fun h1 h2 => h1.trans h2) _ _ ?_ a
  intro a2 jk _
  dsimp only
  split
  · exact PreservesT.rfl _
  · refine foldl_rel (R := fun (p q : Bool × Tensor) => PreservesT p.2 q.2)
      (fun p => PreservesT.rfl _) (fun h1 h2 => h1.trans h2) _ _ ?_ a2
    intro a3 p _
    dsimp only
    exact (condWrite_preserves a3 jk.1 jk.2 p.1 p.2 _).trans
      (condWrite_preserves _ jk.2 jk.1 p.2 p.1 _)

end LogicalSolver

namespace LogicalSolver

/-! Symmetry machinery: which operations keep the combined tensor equal to
its transpose. -/

/-- Transpose symmetry of the combined tensor. -/
def Symm (T : Tensor) : Prop :=
  ∀ x y i j, getT T x y i j = getT T y x j i

theorem getD_replicate' {α : Type} (n : Nat) (a d : α) (m : Nat) :
    (List.replicate n a).getD m d = if m < n then a else d := by
  rw [List.getD_eq_getElem?_getD, List.getElem?_replicate]
  split <;> rfl

theorem getT_blank (nc n x y i j : Nat) :
    getT (blankTensor nc n) x y i j = .neutral := by
  unfold getT extractTbl blankTensor getC
  rw [getD_replicate']
  split
  · rw [getD_replicate']
    split
    · rw [getD_replicate']
      split
      · rw [getD_replicate']
        split <;> rfl
      · rfl
    · simp [List.getD]
  · simp [List.getD]

theorem wf_blank (nc n : Nat) : WFTensor nc n (blankTensor nc n) := by
  refine ⟨List.length_replicate _ _, ?_⟩
  intro row hrow
  rw [List.eq_of_mem_replicate hrow]
  refine ⟨List.length_replicate _ _, ?_⟩
  intro tb htb
  rw [List.eq_of_mem_replicate htb]
  refine ⟨List.length_replicate _ _, ?_⟩
  intro r hr
  rw [List.eq_of_mem_replicate hr]
  exact List.length_replicate _ _

theorem symm_blank (nc n : Nat) : Symm (blankTensor nc n) := by
  intro x y i j
  rw [getT_blank, getT_blank]

theorem writeTbl_extract_self (T : Tensor) (x y : Nat) :
    writeTbl T x y (extractTbl T x y) = T := by
  by_cases hx : x < T.length
  · by_cases hy : y < (T.getD x []).length
    · unfold writeTbl extractTbl
      rw [set_getD_self _ _ hy, set_getD_self _ _ hx]
    · exact writeTbl_oob _ _ (Or.inr (by omega))
  · exact writeTbl_oob _ _ (Or.inl (by omega))

theorem setC_oob {n : Nat} {t : Tbl} (hwf : WFTbl n t) {i j : Nat}
    {v : RelationState} (h : ¬(i < n ∧ j < n)) : setC t i j v = t := by
  unfold setC
  by_cases hi : i < n
  · have hj : ¬ j < n := fun hj => h ⟨hi, hj⟩
    have hlen : (t.getD i []).length ≤ j := by rw [hwf.rowLength hi]; omega
    have h1 := hwf.1
    rw [List.set_eq_of_length_le hlen]
    exact set_getD_self _ _ (by omega)
  · have h1 := hwf.1
    exact List.set_eq_of_length_le (by omega)

theorem setT_oob {nc n : Nat} {T : Tensor} (hwf : WFTensor nc n T) {x y i j : Nat}
    (v : RelationState) (h : ¬(x < nc ∧ y < nc ∧ i < n ∧ j < n)) :
    setT T x y i j v = T := by
  unfold setT
  by_cases hx : x < nc
  · by_cases hy : y < nc
    · have hij : ¬(i < n ∧ j < n) := fun hij => h ⟨hx, hy, hij⟩
      rw [setC_oob (hwf.extract hx hy) hij]
      exact writeTbl_extract_self T x y
    · refine writeTbl_oob _ _ (Or.inr ?_)
      rw [hwf.rowLen hx]
      omega
  · have h1 := hwf.1
    exact writeTbl_oob _ _ (Or.inl (by omega))

theorem getT_setT_pair_val {nc n : Nat} {T : Tensor} (hwf : WFTensor nc n T)
    {x y i j : Nat} (hx : x < nc) (hy : y < nc) (hi : i < n) (hj : j < n)
    (v : RelationState) (a b c d : Nat) :
    getT (setT (setT T x y i j v) y x j i v) a b c d =
      if a = y ∧ b = x ∧ c = j ∧ d = i then v
      else if a = x ∧ b = y ∧ c = i ∧ d = j then v
      else getT T a b c d := by
  by_cases hA : a = y ∧ b = x ∧ c = j ∧ d = i
  · have e1 : getT (setT (setT T x y i j v) y x j i v) a b c d
        = getT (setT (setT T x y i j v) y x j i v) y x j i := by
      rw [hA.1, hA.2.1, hA.2.2.1, hA.2.2.2]
    rw [e1, getT_setT_self (hwf.setT x y i j v) v hy hx hj hi, if_pos hA]
  · rw [getT_setT_ne _ _ hA, if_neg hA]
    by_cases hB : a = x ∧ b = y ∧ c = i ∧ d = j
    · have e1 : getT (setT T x y i j v) a b c d = getT (setT T x y i j v) x y i j := by
        rw [hB.1, hB.2.1, hB.2.2.1, hB.2.2.2]
      rw [e1, getT_setT_self hwf v hx hy hi hj, if_pos hB]
    · rw [getT_setT_ne _ _ hB, if_neg hB]

theorem symm_setT_pair {nc n : Nat} {T : Tensor} (hwf : WFTensor nc n T) (hs : Symm T)
    {x y i j : Nat} (hx : x < nc) (hy : y < nc) (hi : i < n) (hj : j < n)
    (v : RelationState) : Symm (setT (setT T x y i j v) y x j i v) := by
  intro a b c d
  rw [getT_setT_pair_val hwf hx hy hi hj v a b c d,
    getT_setT_pair_val hwf hx hy hi hj v b a d c]
  have hq1 : (b = y ∧ a = x ∧ d = j ∧ c = i) ↔ (a = x ∧ b = y ∧ c = i ∧ d = j) :=
    ⟨fun h => ⟨h.2.1, h.1, h.2.2.2, h.2.2.1⟩, fun h => ⟨h.2.1, h.1, h.2.2.2, h.2.2.1⟩⟩
  have hq2 : (b = x ∧ a = y ∧ d = i ∧ c = j) ↔ (a = y ∧ b = x ∧ c = j ∧ d = i) :=
    ⟨fun h => ⟨h.2.1, h.1, h.2.2.2, h.2.2.1⟩, fun h => ⟨h.2.1, h.1, h.2.2.2, h.2.2.1⟩⟩
  simp only [hq1, hq2]
  split_ifs <;> first | rfl | exact hs a b c d

theorem symm_setT_diag {T : Tensor} (hs : Symm T)
    {x i : Nat} (v : RelationState) : Symm (setT T x x i i v) := by
  intro a b c d
  by_cases hA : a = x ∧ b = x ∧ c = i ∧ d = i
  · have e1 : getT (setT T x x i i v) a b c d = getT (setT T x x i i v) x x i i := by
      rw [hA.1, hA.2.1, hA.2.2.1, hA.2.2.2]
    have e2 : getT (setT T x x i i v) b a d c = getT (setT T x x i i v) x x i i := by
      rw [hA.1, hA.2.1, hA.2.2.1, hA.2.2.2]
    rw [e1, e2]
  · have hB : ¬(b = x ∧ a = x ∧ d = i ∧ c = i) :=
      fun h => hA ⟨h.2.1, h.1, h.2.2.2, h.2.2.1⟩
    rw [getT_setT_ne _ _ hA, getT_setT_ne _ _ hB]
    exact hs a b c d

end LogicalSolver

namespace LogicalSolver

/-- The joint well-formedness and symmetry invariant. -/
def WS (nc n : Nat) (T : Tensor) : Prop :=
  WFTensor nc n T ∧ Symm T

theorem condPair_ws {nc n x y i j : Nat} (p : Bool × Tensor) (h : WS nc n p.2)
    (hx : x < nc) (hy : y < nc) (hi : i < n) (hj : j < n) (v : RelationState) :
    WS nc n ((if getT (if getT p.2 x y i j = .neutral then (true, setT p.2 x y i j v) else p).2 y x j i = .neutral
        then (true, setT (if getT p.2 x y i j = .neutral then (true, setT p.2 x y i j v) else p).2 y x j i v)
        else if getT p.2 x y i j = .neutral then (true, setT p.2 x y i j v) else p).2) := by
  by_cases hg1 : getT p.2 x y i j = .neutral
  · rw [if_pos hg1]
    dsimp only
    by_cases hAB : y = x ∧ j = i
    · have e1 : setT p.2 x y i j v = setT p.2 x x i i v := by rw [← hAB.1, ← hAB.2]
      have e2 : ∀ (D : Tensor), setT D y x j i v = setT D x x i i v := by
        intro D; rw [hAB.1, hAB.2]
      rw [e1, e2]
      split
      · exact ⟨(h.1.setT x x i i v).setT x x i i v,
          symm_setT_diag (symm_setT_diag h.2 v) v⟩
      · exact ⟨h.1.setT x x i i v, symm_setT_diag h.2 v⟩
    · have hne : ¬(y = x ∧ x = y ∧ j = i ∧ i = j) := fun hh => hAB ⟨hh.1, hh.2.2.1⟩
      have hg2 : getT (setT p.2 x y i j v) y x j i = getT p.2 y x j i :=
        getT_setT_ne _ _ hne
      rw [if_pos (by rw [hg2, ← h.2 x y i j]; exact hg1)]
      exact ⟨(h.1.setT x y i j v).setT y x j i v, symm_setT_pair h.1 h.2 hx hy hi hj v⟩
  · rw [if_neg hg1]
    rw [if_neg (by rw [← h.2 x y i j]; exact hg1)]
    exact h

theorem applyConclusion_ws {nc n : Nat} (acc : Bool × Bool × Tensor) (u : Conclusion)
    (h : WS nc n acc.2.2) : WS nc n (applyConclusion acc u).2.2 := by
  unfold applyConclusion
  split
  · exact h
  · dsimp only
    by_cases hbnd : u.1.1 < nc ∧ u.2.1.1 < nc ∧ u.1.2 < n ∧ u.2.1.2 < n
    · obtain ⟨hx, hy, hi, hj⟩ := hbnd
      by_cases hg1 : getT acc.2.2 u.1.1 u.2.1.1 u.1.2 u.2.1.2 ≠ u.2.2
      · rw [if_pos hg1]
        dsimp only
        by_cases hAB : u.2.1.1 = u.1.1 ∧ u.2.1.2 = u.1.2
        · have e1 : setT acc.2.2 u.1.1 u.2.1.1 u.1.2 u.2.1.2 u.2.2
              = setT acc.2.2 u.1.1 u.1.1 u.1.2 u.1.2 u.2.2 := by rw [hAB.1, hAB.2]
          have e2 : ∀ (D : Tensor), setT D u.2.1.1 u.1.1 u.2.1.2 u.1.2 u.2.2
              = setT D u.1.1 u.1.1 u.1.2 u.1.2 u.2.2 := by intro D; rw [hAB.1, hAB.2]
          rw [e1, e2]
          have hself : getT (setT acc.2.2 u.1.1 u.1.1 u.1.2 u.1.2 u.2.2) u.1.1 u.1.1 u.1.2 u.1.2
              = u.2.2 := getT_setT_self h.1 _ hx hx hi hi
          rw [if_neg (by rw [hAB.1, hAB.2, hself]; exact fun hh => hh rfl)]
          exact ⟨h.1.setT _ _ _ _ _, symm_setT_diag h.2 _⟩
        · have hne : ¬(u.2.1.1 = u.1.1 ∧ u.1.1 = u.2.1.1 ∧ u.2.1.2 = u.1.2 ∧ u.1.2 = u.2.1.2) :=
            fun hh => hAB ⟨hh.1, hh.2.2.1⟩
          have hg2 : getT (setT acc.2.2 u.1.1 u.2.1.1 u.1.2 u.2.1.2 u.2.2) u.2.1.1 u.1.1 u.2.1.2 u.1.2
              = getT acc.2.2 u.2.1.1 u.1.1 u.2.1.2 u.1.2 := getT_setT_ne _ _ hne
          rw [if_pos (by rw [hg2, ← h.2 u.1.1 u.2.1.1 u.1.2 u.2.1.2]; exact hg1)]
          exact ⟨(h.1.setT _ _ _ _ _).setT _ _ _ _ _,
            symm_setT_pair h.1 h.2 hx hy hi hj u.2.2⟩
      · rw [if_neg hg1]
        rw [if_neg (by rw [← h.2 u.1.1 u.2.1.1 u.1.2 u.2.1.2]; exact hg1)]
        exact h
    · have hb2 : ¬(u.2.1.1 < nc ∧ u.1.1 < nc ∧ u.2.1.2 < n ∧ u.1.2 < n) :=
        fun hh => hbnd ⟨hh.2.1, hh.1, hh.2.2.2, hh.2.2.1⟩
      rw [setT_oob h.1 _ hbnd]
      split
      · rw [setT_oob h.1 _ hb2]
        split
        · exact h
        · exact h
      · rw [setT_oob h.1 _ hb2]
        split
        · exact h
        · exact h

theorem processClue_ws {nc n : Nat} (T : Tensor) (c : Clue) (h : WS nc n T) :
    WS nc n (processClue T c).2.1 := by
  unfold processClue
  dsimp only
  exact foldl_rel (R := fun (p q : Bool × Bool × Tensor) => WS nc n p.2.2 → WS nc n q.2.2)
    (fun p hp => hp) (fun h1 h2 hp => h2 (h1 hp)) applyConclusion _
    (fun a u _ ha => applyConclusion_ws a u ha) (false, true, T) h

theorem processCluesList_ws {nc n : Nat} (cl : List Clue) :
    ∀ (T : Tensor), WS nc n T → WS nc n (processCluesList T cl).2.1 := by
  induction cl with
  | nil => intro T h; exact h
  | cons c rest ih =>
    intro T h
    unfold processCluesList
    dsimp only
    exact ih _ (processClue_ws T c h)

theorem mem_pairsOf {α : Type} {l : List α} {p : α × α} (h : p ∈ pairsOf l) :
    p.1 ∈ l ∧ p.2 ∈ l := by
  induction l with
  | nil => cases h
  | cons x xs ih =>
    unfold pairsOf at h
    rw [List.mem_append] at h
    rcases h with h | h
    · rw [List.mem_map] at h
      obtain ⟨y, hy, rfl⟩ := h
      exact ⟨by simp, by simp [hy]⟩
    · have := ih h
      exact ⟨by simp [this.1], by simp [this.2]⟩

theorem mem_lowerPositives {nc n : Nat} {T : Tensor} {m : Nat × Nat × Nat × Nat}
    (h : m ∈ lowerPositives nc n T) :
    m.1 < nc ∧ m.2.1 < nc ∧ m.2.2.1 < n ∧ m.2.2.2 < n := by
  unfold lowerPositives at h
  simp only [List.mem_flatMap, List.mem_filterMap, List.mem_range] at h
  obtain ⟨i, hi, j, hj, k, hk, l, hl, hif⟩ := h
  split at hif
  · cases hif
    exact ⟨hi, show j < nc by omega, hk, hl⟩
  · cases hif

theorem mem_stepCross {n : Nat} {ta tb : Tbl} {p : Nat × Nat}
    (h : p ∈ stepApplyCrossElimination n ta tb) : p.1 < n ∧ p.2 < n := by
  unfold stepApplyCrossElimination at h
  simp only [List.mem_flatMap, List.mem_range] at h
  obtain ⟨ca, hca, hmem⟩ := h
  cases hA : crossColInfo n ta ca with
  | none => rw [hA] at hmem; cases hmem
  | some negA =>
    rw [hA] at hmem
    simp only [List.mem_filterMap, List.mem_range] at hmem
    obtain ⟨cb, hcb, hif⟩ := hmem
    cases hB : crossColInfo n tb cb with
    | none => rw [hB] at hif; cases hif
    | some negB =>
      rw [hB] at hif
      dsimp only at hif
      split at hif
      · cases hif
        exact ⟨hca, hcb⟩
      · cases hif

theorem stepApplyTranspositionLogic_ws {nc n m0 m1 m2 m3 : Nat} (T : Tensor)
    (hm0 : m0 < nc) (hm1 : m1 < nc) (hm2 : m2 < n) (hm3 : m3 < n) (h : WS nc n T) :
    WS nc n (stepApplyTranspositionLogic nc n m0 m1 m2 m3 T).2 := by
  unfold stepApplyTranspositionLogic
  refine foldl_rel (R := fun (p q : Bool × Tensor) => WS nc n p.2 → WS nc n q.2)
    (fun p hp => hp) (fun h1 h2 hp => h2 (h1 hp)) _ _ ?_ (false, T) h
  intro a i _
  try dsimp only
  split
  · refine foldl_rel (R := fun (p q : Bool × Tensor) => WS nc n p.2 → WS nc n q.2)
      (fun p hp => hp) (fun h1 h2 hp => h2 (h1 hp)) _ _ ?_ a
    intro a2 j hjmem
    have hj : j < nc := List.mem_range.mp hjmem
    try dsimp only
    split
    · exact fun hp => hp
    · refine foldl_rel (R := fun (p q : Bool × Tensor) => WS nc n p.2 → WS nc n q.2)
        (fun p hp => hp) (fun h1 h2 hp => h2 (h1 hp)) _ _ ?_ a2
      intro a3 k hkmem
      have hk : k < n := List.mem_range.mp hkmem
      try dsimp only
      split
      · exact fun hp => hp
      · exact fun hp => condPair_ws a3 hp hm1 hj hm3 hk _
  · split
    · refine foldl_rel (R := fun (p q : Bool × Tensor) => WS nc n p.2 → WS nc n q.2)
        (fun p hp => hp) (fun h1 h2 hp => h2 (h1 hp)) _ _ ?_ a
      intro a2 j hjmem
      have hj : j < nc := List.mem_range.mp hjmem
      try dsimp only
      split
      · exact fun hp => hp
      · refine foldl_rel (R := fun (p q : Bool × Tensor) => WS nc n p.2 → WS nc n q.2)
          (fun p hp => hp) (fun h1 h2 hp => h2 (h1 hp)) _ _ ?_ a2
        intro a3 k hkmem
        have hk : k < n := List.mem_range.mp hkmem
        try dsimp only
        split
        · exact fun hp => hp
        · exact fun hp => condPair_ws a3 hp hm0 hj hm2 hk _
    · exact fun hp => hp

theorem transFix_ws {nc n m0 m1 m2 m3 : Nat}
    (hm0 : m0 < nc) (hm1 : m1 < nc) (hm2 : m2 < n) (hm3 : m3 < n) :
    ∀ (fuel : Nat) (T : Tensor) (b : Bool) (T' : Tensor),
      transFix nc n m0 m1 m2 m3 fuel T = .ok (b, T') → WS nc n T → WS nc n T' := by
  intro fuel
  induction fuel with
  | zero =>
    intro T b T' heq hws
    unfold transFix at heq
    cases hs : stepApplyTranspositionLogic nc n m0 m1 m2 m3 T with
    | mk ch T1 =>
      rw [hs] at heq
      cases ch with
      | false =>
        cases heq
        have := stepApplyTranspositionLogic_ws T hm0 hm1 hm2 hm3 hws
        rw [hs] at this
        exact this
      | true => dsimp only at heq; cases heq
  | succ f ih =>
    intro T b T' heq hws
    unfold transFix at heq
    cases hs : stepApplyTranspositionLogic nc n m0 m1 m2 m3 T with
    | mk ch T1 =>
      rw [hs] at heq
      cases ch with
      | false =>
        cases heq
        have := stepApplyTranspositionLogic_ws T hm0 hm1 hm2 hm3 hws
        rw [hs] at this
        exact this
      | true =>
        dsimp only at heq
        cases hr : transFix nc n m0 m1 m2 m3 f T1 with
        | error e => rw [hr] at heq; cases heq
        | ok p =>
          rw [hr] at heq
          cases heq
          have hws1 : WS nc n T1 := by
            have := stepApplyTranspositionLogic_ws T hm0 hm1 hm2 hm3 hws
            rw [hs] at this
            exact this
          exact ih T1 p.1 p.2 (by rw [hr]) hws1

theorem applyTranspositionLogic_ws {nc n fuel : Nat} {T : Tensor} {b : Bool}
    {T' : Tensor} (heq : applyTranspositionLogic nc n fuel T = .ok (b, T'))
    (h : WS nc n T) : WS nc n T' := by
  unfold applyTranspositionLogic at heq
  have := exceptFoldl_rel (R := fun (p q : Bool × Tensor) => WS nc n p.2 → WS nc n q.2)
    (fun p hp => hp) (fun h1 h2 hp => h2 (h1 hp)) _ _ ?_ _ _ heq
  · exact this h
  · intro a m a' hmem hstep
    cases hf : transFix nc n m.1 m.2.1 m.2.2.1 m.2.2.2 fuel a.2 with
    | error e => rw [hf] at hstep; cases hstep
    | ok p =>
      rw [hf] at hstep
      cases p with
      | mk ch T2 =>
        dsimp only at hstep
        cases hstep
        have hb := mem_lowerPositives hmem
        exact fun hp => transFix_ws hb.1 hb.2.1 hb.2.2.1 hb.2.2.2 fuel a.2 ch T2 hf hp

theorem applyCrossElimination_ws (nc n : Nat) (T : Tensor) (h : WS nc n T) :
    WS nc n (applyCrossElimination nc n T).2 := by
  unfold applyCrossElimination
  refine foldl_rel (R := fun (p q : Bool × Tensor) => WS nc n p.2 → WS nc n q.2)
    (fun p hp => hp) (fun h1 h2 hp => h2 (h1 hp)) _ _ ?_ (false, T) h
  intro a i _
  try dsimp only
  refine foldl_rel (R := fun (p q : Bool × Tensor) => WS nc n p.2 → WS nc n q.2)
    (fun p hp => hp) (fun h1 h2 hp => h2 (h1 hp)) _ _ ?_ a
  intro a2 jk hjkmem
  have hjk := mem_pairsOf hjkmem
  have hjk1 : jk.1 < nc := List.mem_range.mp hjk.1
  have hjk2 : jk.2 < nc := List.mem_range.mp hjk.2
  try dsimp only
  split
  · exact fun hp => hp
  · refine foldl_rel (R := fun (p q : Bool × Tensor) => WS nc n p.2 → WS nc n q.2)
      (fun p hp => hp) (fun h1 h2 hp => h2 (h1 hp)) _ _ ?_ a2
    intro a3 pr hprmem
    have hpr := mem_stepCross hprmem
    try dsimp only
    exact fun hp => condPair_ws a3 hp hjk1 hjk2 hpr.1 hpr.2 _

end LogicalSolver

namespace LogicalSolver

theorem mem_problemKeys {nc : Nat} {k : Nat × Nat} (h : k ∈ problemKeys nc) :
    k.1 < nc ∧ k.2 < nc := by
  unfold problemKeys at h
  simp only [List.mem_flatMap, List.mem_map, List.mem_range] at h
  obtain ⟨p, hp, t, ht, hk⟩ := h
  have hrow := List.snd_mem_of_mem_enum hp
  simp only [List.singleton_append, List.mem_cons, List.mem_reverse, List.mem_map,
    List.mem_range] at hrow
  subst hk
  rcases hrow with h0 | ⟨t2, ht2, he⟩
  · exact ⟨by simp [h0]; omega, by simp; omega⟩
  · exact ⟨by simp [← he]; omega, by simp; omega⟩

theorem seedTensor_ws (st : ProblemState) :
    WS st.nCategories st.nItems (seedTensor st) := by
  unfold seedTensor
  refine foldl_rel (R := fun (p q : Tensor) => WS st.nCategories st.nItems p →
      WS st.nCategories st.nItems q)
    (fun p hp => hp) (fun h1 h2 hp => h2 (h1 hp)) _ _ ?_ _
    ⟨wf_blank _ _, symm_blank _ _⟩
  intro T key hkey
  have hk := mem_problemKeys hkey
  refine foldl_rel (R := fun (p q : Tensor) => WS st.nCategories st.nItems p →
      WS st.nCategories st.nItems q)
    (fun p hp => hp) (fun h1 h2 hp => h2 (h1 hp)) _ _ ?_ T
  intro T2 i himem
  have hi : i < st.nItems := List.mem_range.mp himem
  refine foldl_rel (R := fun (p q : Tensor) => WS st.nCategories st.nItems p →
      WS st.nCategories st.nItems q)
    (fun p hp => hp) (fun h1 h2 hp => h2 (h1 hp)) _ _ ?_ T2
  intro T3 j hjmem
  have hj : j < st.nItems := List.mem_range.mp hjmem
  dsimp only
  split
  · intro hp
    exact ⟨(hp.1.setT _ _ _ _ _).setT _ _ _ _ _,
      symm_setT_pair hp.1 hp.2 hk.1 hk.2 hi hj _⟩
  · exact fun hp => hp

theorem identRow_val {nc n : Nat} (i j : Nat) (hi : i < nc) (hj : j < n) :
    ∀ (ks : List Nat) (T : Tensor), WFTensor nc n T → (∀ k ∈ ks, k < n) →
      WFTensor nc n (ks.foldl
        (fun T k => if j = k then setT T i i j k .positive else setT T i i j k .negative) T) ∧
      ∀ a b c d : Nat,
        getT (ks.foldl
          (fun T k => if j = k then setT T i i j k .positive else setT T i i j k .negative) T)
          a b c d =
        if a = i ∧ b = i ∧ c = j ∧ d ∈ ks then (if c = d then .positive else .negative)
        else getT T a b c d := by
  intro ks
  induction ks with
  | nil =>
    intro T hwf _
    refine ⟨hwf, ?_⟩
    intro a b c d
    simp
  | cons k rest ih =>
    intro T hwf hks
    have hkn : k < n := hks k (by simp)
    have hrest : ∀ x ∈ rest, x < n := fun x hx => hks x (by simp [hx])
    have hfk : WFTensor nc n
        (if j = k then setT T i i j k .positive else setT T i i j k .negative) := by
      split
      · exact hwf.setT _ _ _ _ _
      · exact hwf.setT _ _ _ _ _
    have hfkval : ∀ a b c d : Nat,
        getT (if j = k then setT T i i j k .positive else setT T i i j k .negative) a b c d =
          if a = i ∧ b = i ∧ c = j ∧ d = k then (if c = d then .positive else .negative)
          else getT T a b c d := by
      intro a b c d
      by_cases hc : a = i ∧ b = i ∧ c = j ∧ d = k
      · have e1 : ∀ (D : Tensor), getT D a b c d = getT D i i j k := by
          intro D
          rw [hc.1, hc.2.1, hc.2.2.1, hc.2.2.2]
        rw [if_pos hc]
        by_cases hjk : j = k
        · rw [if_pos hjk, e1, getT_setT_self hwf _ hi hi hj hkn]
          rw [if_pos (by omega : c = d)]
        · rw [if_neg hjk, e1, getT_setT_self hwf _ hi hi hj hkn]
          rw [if_neg (by omega : ¬ c = d)]
      · rw [if_neg hc]
        split
        · exact getT_setT_ne _ _ hc
        · exact getT_setT_ne _ _ hc
    rw [List.foldl_cons]
    obtain ⟨ihwf, ihval⟩ := ih _ hfk hrest
    refine ⟨ihwf, ?_⟩
    intro a b c d
    rw [ihval a b c d]
    by_cases h1 : a = i ∧ b = i ∧ c = j ∧ d ∈ rest
    · rw [if_pos h1, if_pos (show a = i ∧ b = i ∧ c = j ∧ d ∈ k :: rest from
        ⟨h1.1, h1.2.1, h1.2.2.1, by simp [h1.2.2.2]⟩)]
    · rw [if_neg h1, hfkval a b c d]
      by_cases h2 : a = i ∧ b = i ∧ c = j ∧ d = k
      · rw [if_pos h2, if_pos (show a = i ∧ b = i ∧ c = j ∧ d ∈ k :: rest from
          ⟨h2.1, h2.2.1, h2.2.2.1, by simp [h2.2.2.2]⟩)]
      · rw [if_neg h2, if_neg ?_]
        intro hcon
        rcases List.mem_cons.mp hcon.2.2.2 with hdk | hdr
        · exact h2 ⟨hcon.1, hcon.2.1, hcon.2.2.1, hdk⟩
        · exact h1 ⟨hcon.1, hcon.2.1, hcon.2.2.1, hdr⟩

theorem identBlock_val {nc n : Nat} (i : Nat) (hi : i < nc) :
    ∀ (js : List Nat) (T : Tensor), WFTensor nc n T → (∀ x ∈ js, x < n) →
      WFTensor nc n (js.foldl
        (fun T j => (List.range n).foldl
          (fun T k => if j = k then setT T i i j k .positive else setT T i i j k .negative) T) T) ∧
      ∀ a b c d : Nat,
        getT (js.foldl
          (fun T j => (List.range n).foldl
            (fun T k => if j = k then setT T i i j k .positive else setT T i i j k .negative) T) T)
          a b c d =
        if a = i ∧ b = i ∧ c ∈ js ∧ d < n then (if c = d then .positive else .negative)
        else getT T a b c d := by
  intro js
  induction js with
  | nil =>
    intro T hwf _
    refine ⟨hwf, ?_⟩
    intro a b c d
    simp
  | cons j rest ih =>
    intro T hwf hjs
    have hjn : j < n := hjs j (by simp)
    have hrest : ∀ x ∈ rest, x < n := fun x hx => hjs x (by simp [hx])
    obtain ⟨rowwf, rowval⟩ := identRow_val i j hi hjn (List.range n) T hwf
      (fun x hx => List.mem_range.mp hx)
    rw [List.foldl_cons]
    obtain ⟨ihwf, ihval⟩ := ih _ rowwf hrest
    refine ⟨ihwf, ?_⟩
    intro a b c d
    rw [ihval a b c d]
    by_cases h1 : a = i ∧ b = i ∧ c ∈ rest ∧ d < n
    · rw [if_pos h1, if_pos (show a = i ∧ b = i ∧ c ∈ j :: rest ∧ d < n from
        ⟨h1.1, h1.2.1, by simp [h1.2.2.1], h1.2.2.2⟩)]
    · rw [if_neg h1, rowval a b c d]
      by_cases h2 : a = i ∧ b = i ∧ c = j ∧ d ∈ List.range n
      · rw [if_pos h2, if_pos (show a = i ∧ b = i ∧ c ∈ j :: rest ∧ d < n from
          ⟨h2.1, h2.2.1, by simp [h2.2.2.1], List.mem_range.mp h2.2.2.2⟩)]
      · rw [if_neg h2, if_neg ?_]
        intro hcon
        rcases List.mem_cons.mp hcon.2.2.1 with hcj | hcr
        · exact h2 ⟨hcon.1, hcon.2.1, hcj, List.mem_range.mpr hcon.2.2.2⟩
        · exact h1 ⟨hcon.1, hcon.2.1, hcr, hcon.2.2.2⟩

theorem initIdentity_val {nc n : Nat} :
    ∀ (is : List Nat) (T : Tensor), WFTensor nc n T → (∀ x ∈ is, x < nc) →
      WFTensor nc n (is.foldl
        (fun T i => (List.range n).foldl
          (fun T j => (List.range n).foldl
            (fun T k => if j = k then setT T i i j k .positive else setT T i i j k .negative) T) T) T) ∧
      ∀ a b c d : Nat,
        getT (is.foldl
          (fun T i => (List.range n).foldl
            (fun T j => (List.range n).foldl
              (fun T k => if j = k then setT T i i j k .positive else setT T i i j k .negative) T) T) T)
          a b c d =
        if a = b ∧ a ∈ is ∧ c < n ∧ d < n then (if c = d then .positive else .negative)
        else getT T a b c d := by
  intro is
  induction is with
  | nil =>
    intro T hwf _
    refine ⟨hwf, ?_⟩
    intro a b c d
    simp
  | cons i rest ih =>
    intro T hwf his
    have hin : i < nc := his i (by simp)
    have hrest : ∀ x ∈ rest, x < nc := fun x hx => his x (by simp [hx])
    obtain ⟨blockwf, blockval⟩ := identBlock_val i hin (List.range n) T hwf
      (fun x hx => List.mem_range.mp hx)
    rw [List.foldl_cons]
    obtain ⟨ihwf, ihval⟩ := ih _ blockwf hrest
    refine ⟨ihwf, ?_⟩
    intro a b c d
    rw [ihval a b c d]
    by_cases h1 : a = b ∧ a ∈ rest ∧ c < n ∧ d < n
    · rw [if_pos h1, if_pos (show a = b ∧ a ∈ i :: rest ∧ c < n ∧ d < n from
        ⟨h1.1, by simp [h1.2.1], h1.2.2⟩)]
    · rw [if_neg h1, blockval a b c d]
      by_cases h2 : a = i ∧ b = i ∧ c ∈ List.range n ∧ d < n
      · rw [if_pos h2, if_pos (show a = b ∧ a ∈ i :: rest ∧ c < n ∧ d < n from
          ⟨by rw [h2.1, h2.2.1], by simp [h2.1], List.mem_range.mp h2.2.2.1, h2.2.2.2⟩)]
      · rw [if_neg h2, if_neg ?_]
        intro hcon
        rcases List.mem_cons.mp hcon.2.1 with hai | har
        · exact h2 ⟨hai, by rw [← hcon.1, hai], List.mem_range.mpr hcon.2.2.1, hcon.2.2.2⟩
        · exact h1 ⟨hcon.1, har, hcon.2.2⟩

theorem getT_initIdentity {nc n : Nat} {T : Tensor} (hwf : WFTensor nc n T)
    (a b c d : Nat) :
    getT (initIdentity nc n T) a b c d =
      if a = b ∧ a < nc ∧ c < n ∧ d < n then (if c = d then .positive else .negative)
      else getT T a b c d := by
  unfold initIdentity
  rw [(initIdentity_val (List.range nc) T hwf (fun x hx => List.mem_range.mp hx)).2 a b c d]
  by_cases h1 : a = b ∧ a ∈ List.range nc ∧ c < n ∧ d < n
  · rw [if_pos h1, if_pos (show a = b ∧ a < nc ∧ c < n ∧ d < n from
      ⟨h1.1, List.mem_range.mp h1.2.1, h1.2.2⟩)]
  · rw [if_neg h1, if_neg (fun hc => h1 ⟨hc.1, List.mem_range.mpr hc.2.1, hc.2.2⟩)]

theorem initIdentity_wf {nc n : Nat} {T : Tensor} (hwf : WFTensor nc n T) :
    WFTensor nc n (initIdentity nc n T) := by
  unfold initIdentity
  exact (initIdentity_val (List.range nc) T hwf (fun x hx => List.mem_range.mp hx)).1

theorem initIdentity_ws {nc n : Nat} {T : Tensor} (h : WS nc n T) :
    WS nc n (initIdentity nc n T) := by
  refine ⟨initIdentity_wf h.1, ?_⟩
  intro x y i j
  rw [getT_initIdentity h.1 x y i j, getT_initIdentity h.1 y x j i]
  by_cases h1 : x = y ∧ x < nc ∧ i < n ∧ j < n
  · rw [if_pos h1, if_pos (show y = x ∧ y < nc ∧ j < n ∧ i < n from
      ⟨h1.1.symm, by omega, h1.2.2.2, h1.2.2.1⟩)]
    by_cases hij : i = j
    · rw [if_pos hij, if_pos hij.symm]
    · rw [if_neg hij, if_neg (fun hc => hij hc.symm)]
  · rw [if_neg h1, if_neg (fun hc => h1 ⟨hc.1.symm, by omega, hc.2.2.2, hc.2.2.1⟩)]
    exact h.2 x y i j

/-- The combined tensor built at the start of `draw_conclusions` (user
assignments copied with their transposes, identity blocks filled) is
well-formed and symmetric. -/
theorem seededTensor_ws (st : ProblemState) :
    WS st.nCategories st.nItems
      (initIdentity st.nCategories st.nItems (seedTensor st)) :=
  initIdentity_ws (seedTensor_ws st)

end LogicalSolver


namespace LogicalSolver

/-! Concrete instances exercising the exactly-one pass on a row that holds
two positives and a neutral. -/

/-- A pairwise table whose first row holds two positives and a neutral. -/
def oneBadTbl : Tbl :=
  [[.positive, .positive, .neutral],
   [.neutral, .neutral, .neutral],
   [.neutral, .neutral, .neutral]]

/-- The table after one `stepExactlyOne` round on `oneBadTbl`. -/
def oneBadTbl1 : Tbl :=
  [[.positive, .positive, .neutral],
   [.negative, .negative, .neutral],
   [.negative, .negative, .neutral]]

/-- The table after two rounds: a content the pass no longer modifies yet
still reports as changed, because the first row counts two positives. -/
def oneBadTbl2 : Tbl :=
  [[.positive, .positive, .neutral],
   [.negative, .negative, .positive],
   [.negative, .negative, .positive]]

/-- The three-item identity block. -/
def id3Tbl : Tbl :=
  [[.positive, .negative, .negative],
   [.negative, .positive, .negative],
   [.negative, .negative, .positive]]

/-- The combined tensor that `draw_conclusions` builds for a two-category,
three-item problem whose only assignment grid is `oneBadTbl`. -/
def badTensor : Tensor :=
  [[id3Tbl, oneBadTbl],
   [[[.positive, .neutral, .neutral],
     [.positive, .neutral, .neutral],
     [.neutral, .neutral, .neutral]], id3Tbl]]

/-- A table the step function leaves unchanged is a fixpoint for every fuel
budget. -/
theorem exactlyOneFix_ok_of_false {n : Nat} {t t' : Tbl}
    (h : stepExactlyOne n t = (false, t')) (fuel : Nat) :
    exactlyOneFix n fuel t = .ok (false, t') := by
  unfold exactlyOneFix
  rw [h]

/-- On `oneBadTbl2` the step keeps reporting a change without writing, so
the per-table while loop never exits. -/
theorem exactlyOneFix_stuck (fuel : Nat) :
    exactlyOneFix 3 fuel oneBadTbl2 = .error .fuel := by
  induction fuel with
  | zero =>
    unfold exactlyOneFix
    rw [show stepExactlyOne 3 oneBadTbl2 = (true, oneBadTbl2) from by decide]
  | succ f ih =>
    unfold exactlyOneFix
    rw [show stepExactlyOne 3 oneBadTbl2 = (true, oneBadTbl2) from by decide]
    dsimp only
    rw [ih]
    rfl

theorem exactlyOneFix_bad1 (fuel : Nat) :
    exactlyOneFix 3 fuel oneBadTbl1 = .error .fuel := by
  cases fuel with
  | zero =>
    unfold exactlyOneFix
    rw [show stepExactlyOne 3 oneBadTbl1 = (true, oneBadTbl2) from by decide]
  | succ f =>
    unfold exactlyOneFix
    rw [show stepExactlyOne 3 oneBadTbl1 = (true, oneBadTbl2) from by decide]
    dsimp only
    rw [exactlyOneFix_stuck f]
    rfl

theorem exactlyOneFix_bad (fuel : Nat) :
    exactlyOneFix 3 fuel oneBadTbl = .error .fuel := by
  cases fuel with
  | zero =>
    unfold exactlyOneFix
    rw [show stepExactlyOne 3 oneBadTbl = (true, oneBadTbl1) from by decide]
  | succ f =>
    unfold exactlyOneFix
    rw [show stepExactlyOne 3 oneBadTbl = (true, oneBadTbl1) from by decide]
    dsimp only
    rw [exactlyOneFix_bad1 f]
    rfl

theorem applyExactlyOneLogic_bad (fuel : Nat) :
    applyExactlyOneLogic 2 3 fuel badTensor = .error .fuel := by
  unfold applyExactlyOneLogic
  rw [show tableKeys 2 = [(0, 0), (0, 1), (1, 0), (1, 1)] from by decide]
  unfold exceptFoldl
  dsimp only
  rw [show extractTbl badTensor 0 0 = id3Tbl from by decide,
    exactlyOneFix_ok_of_false
      (show stepExactlyOne 3 id3Tbl = (false, id3Tbl) from by decide) fuel]
  dsimp only
  rw [show writeTbl badTensor 0 0 id3Tbl = badTensor from by decide]
  unfold exceptFoldl
  dsimp only
  rw [show extractTbl badTensor 0 1 = oneBadTbl from by decide, exactlyOneFix_bad fuel]

theorem doAllLogic_bad (fuel : Nat) (cl : Option (List Clue)) :
    doAllLogic 2 3 fuel badTensor cl = .error .fuel := by
  unfold doAllLogic
  rw [applyExactlyOneLogic_bad fuel]

theorem drawLoop_bad (fuel : Nat) (cl : Option (List Clue)) :
    drawLoop 2 3 fuel badTensor cl = .error .fuel := by
  unfold drawLoop
  rw [doAllLogic_bad fuel cl]

/-- A two-category, three-item problem with an empty clue list whose only
assignment grid holds the rejection row of the exactly-one pass. -/
def c3Problem : ProblemState :=
  { mkProblem 2 3 (some []) with
    assign := fun k =>
      if k = (0, 1) then oneBadTbl
      else List.replicate 3 (List.replicate 3 .neutral) }

end LogicalSolver


namespace LogicalSolver

/-- C3: `draw_conclusions` does not terminate for every problem state. On
`c3Problem` (one assignment row holding two positives and a neutral) the
exactly-one pass keeps reporting a change without writing, so the per-table
while loop runs forever: in the embedding the run exhausts every fuel
budget. -/
theorem c3_draw_conclusions_diverges (fuel : Nat) :
    drawConclusions fuel c3Problem = .error .fuel := by
  unfold drawConclusions
  rw [show initIdentity c3Problem.nCategories c3Problem.nItems (seedTensor c3Problem) =
      badTensor from by decide]
  rw [show c3Problem.nCategories = 2 from rfl, show c3Problem.nItems = 3 from rfl]
  rw [drawLoop_bad fuel c3Problem.clues]

/-! Concrete instances for a two-category, two-item problem without a clue
list. -/

/-- The two-item identity block. -/
def id2Tbl : Tbl := [[.positive, .negative], [.negative, .positive]]

/-- The all-neutral two-item block. -/
def neutral2Tbl : Tbl := [[.neutral, .neutral], [.neutral, .neutral]]

/-- The combined tensor that `draw_conclusions` builds for a fresh
two-category, two-item problem. -/
def noneTensor : Tensor := [[id2Tbl, neutral2Tbl], [neutral2Tbl, id2Tbl]]

theorem applyExactlyOneLogic_none (fuel : Nat) :
    applyExactlyOneLogic 2 2 fuel noneTensor = .ok (false, noneTensor) := by
  unfold applyExactlyOneLogic
  rw [show tableKeys 2 = [(0, 0), (0, 1), (1, 0), (1, 1)] from by decide]
  unfold exceptFoldl
  dsimp only
  rw [show extractTbl noneTensor 0 0 = id2Tbl from by decide,
    exactlyOneFix_ok_of_false
      (show stepExactlyOne 2 id2Tbl = (false, id2Tbl) from by decide) fuel]
  dsimp only
  rw [show writeTbl noneTensor 0 0 id2Tbl = noneTensor from by decide]
  unfold exceptFoldl
  dsimp only
  rw [show extractTbl noneTensor 0 1 = neutral2Tbl from by decide,
    exactlyOneFix_ok_of_false
      (show stepExactlyOne 2 neutral2Tbl = (false, neutral2Tbl) from by decide) fuel]
  dsimp only
  rw [show writeTbl noneTensor 0 1 neutral2Tbl = noneTensor from by decide]
  unfold exceptFoldl
  dsimp only
  rw [show extractTbl noneTensor 1 0 = neutral2Tbl from by decide,
    exactlyOneFix_ok_of_false
      (show stepExactlyOne 2 neutral2Tbl = (false, neutral2Tbl) from by decide) fuel]
  dsimp only
  rw [show writeTbl noneTensor 1 0 neutral2Tbl = noneTensor from by decide]
  unfold exceptFoldl
  dsimp only
  rw [show extractTbl noneTensor 1 1 = id2Tbl from by decide,
    exactlyOneFix_ok_of_false
      (show stepExactlyOne 2 id2Tbl = (false, id2Tbl) from by decide) fuel]
  dsimp only
  rw [show writeTbl noneTensor 1 1 id2Tbl = noneTensor from by decide]
  unfold exceptFoldl
  rfl

theorem applyTranspositionLogic_none (fuel : Nat) :
    applyTranspositionLogic 2 2 fuel noneTensor = .ok (false, noneTensor) := by
  unfold applyTranspositionLogic
  rw [show lowerPositives 2 2 noneTensor = [] from by decide]
  unfold exceptFoldl
  rfl

theorem doAllLogic_none (fuel : Nat) :
    doAllLogic 2 2 fuel noneTensor none = .error .noClues := by
  unfold doAllLogic
  rw [applyExactlyOneLogic_none fuel]
  dsimp only
  rw [applyTranspositionLogic_none fuel]
  dsimp only
  rw [show applyPseudoTrue 2 2 noneTensor = (false, noneTensor) from by decide]
  dsimp only
  rw [show applyCrossElimination 2 2 noneTensor = (false, noneTensor) from by decide]
  rfl

/-- C10: for a problem constructed without a clue list, `draw_conclusions`
does not complete normally: `process_all_clues` iterates the `None` clue
list and raises, whatever the fuel budget. -/
theorem c10_no_clues_draw_fails (fuel : Nat) :
    drawConclusions fuel (mkProblem 2 2 none) = .error .noClues := by
  unfold drawConclusions
  rw [show initIdentity (mkProblem 2 2 none).nCategories (mkProblem 2 2 none).nItems
      (seedTensor (mkProblem 2 2 none)) = noneTensor from by decide]
  rw [show (mkProblem 2 2 none).nCategories = 2 from rfl,
    show (mkProblem 2 2 none).nItems = 2 from rfl,
    show (mkProblem 2 2 none).clues = none from rfl]
  unfold drawLoop
  rw [doAllLogic_none fuel]

end LogicalSolver


namespace LogicalSolver

/-! A concrete run on which the per-table exactly-one pass breaks tensor
symmetry. -/

/-- A two-category, three-item problem whose assignment grid pins item 0 and
excludes two further pairings. -/
def c5Problem : ProblemState :=
  { mkProblem 2 3 (some []) with
    assign := fun k =>
      if k = (0, 1) then
        [[.positive, .negative, .neutral], [.neutral, .neutral, .negative],
          [.neutral, .neutral, .negative]]
      else List.replicate 3 (List.replicate 3 .neutral) }

/-- The seeded and identity-filled combined tensor of `c5Problem`. -/
def c5Tensor : Tensor := initIdentity 2 3 (seedTensor c5Problem)

/-- The tensor after the exactly-one pass: block `(0, 1)` and block `(1, 0)`
are no longer transposes of each other. -/
def c5After : Tensor :=
  [[id3Tbl,
    [[.positive, .negative, .negative],
     [.negative, .positive, .negative],
     [.negative, .positive, .negative]]],
   [[[.positive, .negative, .negative],
     [.negative, .positive, .positive],
     [.positive, .negative, .negative]], id3Tbl]]

theorem c5_run : applyExactlyOneLogic 2 3 9 c5Tensor = .ok (true, c5After) := by
  rfl

end LogicalSolver

namespace LogicalSolver

/-! Characterizations of the positive-index scan of `clue.py`. -/

theorem posScan_succ (n : Nat) (f : Nat → RelationState) :
    posScan (n + 1) f = if f n = .positive then some n else posScan n f := by
  unfold posScan
  rw [List.range_succ, List.foldl_append]
  rfl

theorem posScan_none (f : Nat → RelationState) :
    ∀ n, (∀ k, k < n → f k ≠ .positive) → posScan n f = none := by
  intro n
  induction n with
  | zero => intro h; rfl
  | succ m ih =>
    intro h
    rw [posScan_succ, if_neg (h m (Nat.lt_succ_self m))]
    exact ih (fun k hk => h k (Nat.lt_succ_of_lt hk))

theorem posScan_unique (f : Nat → RelationState) :
    ∀ n i0, i0 < n → (∀ k, k < n → (f k = .positive ↔ k = i0)) →
      posScan n f = some i0 := by
  intro n
  induction n with
  | zero => intro i0 hi h; exact absurd hi (Nat.not_lt_zero i0)
  | succ m ih =>
    intro i0 hi h
    rw [posScan_succ]
    by_cases hm : m = i0
    · rw [if_pos ((h m (Nat.lt_succ_self m)).mpr hm), hm]
    · rw [if_neg (fun hp => hm ((h m (Nat.lt_succ_self m)).mp hp))]
      exact ih i0 (by omega) (fun k hk => h k (Nat.lt_succ_of_lt hk))

end LogicalSolver


namespace LogicalSolver

/-! Machinery for the idempotence of `draw_conclusions`: processing a clue
depends only on its solver, and a full run keeps every solver. -/

/-- Two clues carrying the same solver behave identically in clue
processing. -/
def SolverEq (c1 c2 : Clue) : Prop := c1.solver = c2.solver

/-- Pointwise solver equality of two clue lists. -/
def CluesEq : List Clue → List Clue → Prop := List.Forall₂ SolverEq

theorem cluesEq_refl : ∀ l : List Clue, CluesEq l l := by
  intro l
  induction l with
  | nil => exact List.Forall₂.nil
  | cons c t ih => exact List.Forall₂.cons rfl ih

theorem cluesEq_trans {la lb lc : List Clue} (h1 : CluesEq la lb)
    (h2 : CluesEq lb lc) : CluesEq la lc := by
  induction h1 generalizing lc with
  | nil => cases h2; exact List.Forall₂.nil
  | cons hab _ ih =>
    cases h2 with
    | cons hbc htc => exact List.Forall₂.cons (hab.trans hbc) (ih htc)

theorem processClue_solver_eq (T : Tensor) (c1 c2 : Clue) (h : SolverEq c1 c2) :
    (processClue T c1).1 = (processClue T c2).1 ∧
    (processClue T c1).2.1 = (processClue T c2).2.1 ∧
    SolverEq (processClue T c1).2.2 (processClue T c2).2.2 := by
  unfold SolverEq at h
  unfold processClue SolverEq
  rw [h]
  refine ⟨rfl, rfl, ?_⟩
  dsimp only
  split
  · rfl
  · exact h

theorem processClue_solver_self (T : Tensor) (c : Clue) :
    SolverEq c (processClue T c).2.2 := by
  unfold SolverEq processClue
  dsimp only
  split
  · rfl
  · rfl

theorem processCluesList_solver_eq {la lb : List Clue} (h : CluesEq la lb) :
    ∀ T : Tensor,
      (processCluesList T la).1 = (processCluesList T lb).1 ∧
      (processCluesList T la).2.1 = (processCluesList T lb).2.1 ∧
      CluesEq (processCluesList T la).2.2 (processCluesList T lb).2.2 := by
  induction h with
  | nil => intro T; exact ⟨rfl, rfl, List.Forall₂.nil⟩
  | @cons ca cb ta tb hcc hrest ih =>
    intro T
    unfold processCluesList
    dsimp only
    obtain ⟨h1, h2, h3⟩ := processClue_solver_eq T ca cb hcc
    obtain ⟨g1, g2, g3⟩ := ih ((processClue T cb).2.1)
    rw [h1, h2]
    exact ⟨by rw [g1], g2, List.Forall₂.cons h3 g3⟩

theorem processCluesList_solver_self (la : List Clue) :
    ∀ T : Tensor, CluesEq la (processCluesList T la).2.2 := by
  induction la with
  | nil => intro T; exact List.Forall₂.nil
  | cons c t ih =>
    intro T
    unfold processCluesList
    dsimp only
    exact List.Forall₂.cons (processClue_solver_self T c) (ih _)

/-- Relation between two clue-processing results: same failure, or same flag
and tensor with solver-equal clue lists. -/
def ResEq : Except Err (Bool × Tensor × List Clue) →
    Except Err (Bool × Tensor × List Clue) → Prop
  | .error e1, .error e2 => e1 = e2
  | .ok (b1, T1, cl1), .ok (b2, T2, cl2) => b1 = b2 ∧ T1 = T2 ∧ CluesEq cl1 cl2
  | _, _ => False

theorem doAllLogic_solver_eq (nc n fuel : Nat) (T : Tensor) {la lb : List Clue}
    (h : CluesEq la lb) :
    ResEq (doAllLogic nc n fuel T (some la)) (doAllLogic nc n fuel T (some lb)) := by
  unfold doAllLogic
  cases h1 : applyExactlyOneLogic nc n fuel T with
  | error e => exact rfl
  | ok p =>
    dsimp only
    cases h2 : applyTranspositionLogic nc n fuel p.2 with
    | error e => exact rfl
    | ok q =>
      dsimp only [processAllClues]
      obtain ⟨f1, f2, f3⟩ := processCluesList_solver_eq h
        (applyCrossElimination nc n (applyPseudoTrue nc n q.2).2).2
      exact ⟨by rw [f1], f2, f3⟩

theorem doAllLogic_clues_self {nc n fuel : Nat} {T : Tensor} {la : List Clue}
    {b : Bool} {T2 : Tensor} {cl2 : List Clue}
    (h : doAllLogic nc n fuel T (some la) = .ok (b, T2, cl2)) : CluesEq la cl2 := by
  unfold doAllLogic at h
  cases h1 : applyExactlyOneLogic nc n fuel T with
  | error e => rw [h1] at h; cases h
  | ok p =>
    rw [h1] at h
    dsimp only at h
    cases h2 : applyTranspositionLogic nc n fuel p.2 with
    | error e => rw [h2] at h; cases h
    | ok q =>
      rw [h2] at h
      dsimp only [processAllClues] at h
      cases h
      exact processCluesList_solver_self la _

theorem doAllLogic_none_not_ok (nc n fuel : Nat) (T : Tensor)
    (r : Bool × Tensor × List Clue) : doAllLogic nc n fuel T none ≠ .ok r := by
  intro h
  unfold doAllLogic at h
  cases h1 : applyExactlyOneLogic nc n fuel T with
  | error e => rw [h1] at h; cases h
  | ok p =>
    rw [h1] at h
    dsimp only at h
    cases h2 : applyTranspositionLogic nc n fuel p.2 with
    | error e => rw [h2] at h; cases h
    | ok q =>
      rw [h2] at h
      dsimp only [processAllClues] at h
      cases h

/-- Relation between two loop results: same failure, or same tensor with
solver-equal clue lists. -/
def LoopRes : Except Err (Tensor × List Clue) →
    Except Err (Tensor × List Clue) → Prop
  | .error e1, .error e2 => e1 = e2
  | .ok (T1, cl1), .ok (T2, cl2) => T1 = T2 ∧ CluesEq cl1 cl2
  | _, _ => False

theorem drawLoop_solver_eq (nc n : Nat) :
    ∀ (fuel : Nat) (T : Tensor) (la lb : List Clue), CluesEq la lb →
      LoopRes (drawLoop nc n fuel T (some la)) (drawLoop nc n fuel T (some lb)) := by
  intro fuel
  induction fuel with
  | zero =>
    intro T la lb h
    unfold drawLoop
    have hd := doAllLogic_solver_eq nc n 0 T h
    cases hA : doAllLogic nc n 0 T (some la) with
    | error e =>
      rw [hA] at hd
      cases hB : doAllLogic nc n 0 T (some lb) with
      | error e2 => rw [hB] at hd; cases hd; exact rfl
      | ok q => rw [hB] at hd; exact hd.elim
    | ok p =>
      rw [hA] at hd
      cases hB : doAllLogic nc n 0 T (some lb) with
      | error e2 => rw [hB] at hd; exact hd.elim
      | ok q =>
        rw [hB] at hd
        obtain ⟨b1, T1, cl1⟩ := p
        obtain ⟨b2, T2, cl2⟩ := q
        obtain ⟨hb, hT, hcl⟩ := hd
        subst hb
        subst hT
        dsimp only
        by_cases hch : b1 = true
        · rw [if_pos hch, if_pos hch]
          exact rfl
        · rw [if_neg hch, if_neg hch]
          exact ⟨rfl, hcl⟩
  | succ f ih =>
    intro T la lb h
    unfold drawLoop
    have hd := doAllLogic_solver_eq nc n (f + 1) T h
    cases hA : doAllLogic nc n (f + 1) T (some la) with
    | error e =>
      rw [hA] at hd
      cases hB : doAllLogic nc n (f + 1) T (some lb) with
      | error e2 => rw [hB] at hd; cases hd; exact rfl
      | ok q => rw [hB] at hd; exact hd.elim
    | ok p =>
      rw [hA] at hd
      cases hB : doAllLogic nc n (f + 1) T (some lb) with
      | error e2 => rw [hB] at hd; exact hd.elim
      | ok q =>
        rw [hB] at hd
        obtain ⟨b1, T1, cl1⟩ := p
        obtain ⟨b2, T2, cl2⟩ := q
        obtain ⟨hb, hT, hcl⟩ := hd
        subst hb
        subst hT
        dsimp only
        by_cases hch : b1 = true
        · rw [if_pos hch, if_pos hch]
          exact ih T1 cl1 cl2 hcl
        · rw [if_neg hch, if_neg hch]
          exact ⟨rfl, hcl⟩

theorem drawLoop_clues_self (nc n : Nat) :
    ∀ (fuel : Nat) (T : Tensor) (la : List Clue) (Tf : Tensor) (clF : List Clue),
      drawLoop nc n fuel T (some la) = .ok (Tf, clF) → CluesEq la clF := by
  intro fuel
  induction fuel with
  | zero =>
    intro T la Tf clF h
    unfold drawLoop at h
    cases hd : doAllLogic nc n 0 T (some la) with
    | error e => rw [hd] at h; cases h
    | ok p =>
      rw [hd] at h
      obtain ⟨ch, T1, cl1⟩ := p
      have hself : CluesEq la cl1 := doAllLogic_clues_self hd
      dsimp only at h
      by_cases hch : ch = true
      · rw [if_pos hch] at h; cases h
      · rw [if_neg hch] at h
        cases h
        exact hself
  | succ f ih =>
    intro T la Tf clF h
    unfold drawLoop at h
    cases hd : doAllLogic nc n (f + 1) T (some la) with
    | error e => rw [hd] at h; cases h
    | ok p =>
      rw [hd] at h
      obtain ⟨ch, T1, cl1⟩ := p
      have hself : CluesEq la cl1 := doAllLogic_clues_self hd
      dsimp only at h
      by_cases hch : ch = true
      · rw [if_pos hch] at h
        exact cluesEq_trans hself (ih T1 cl1 Tf clF h)
      · rw [if_neg hch] at h
        cases h
        exact hself

theorem drawLoop_none_not_ok (nc n fuel : Nat) (T : Tensor)
    (r : Tensor × List Clue) : drawLoop nc n fuel T none ≠ .ok r := by
  intro h
  unfold drawLoop at h
  cases hd : doAllLogic nc n fuel T none with
  | error e => rw [hd] at h; cases h
  | ok p => exact doAllLogic_none_not_ok nc n fuel T p hd

/-- The solved tensor written at the end of a successful
`draw_conclusions` run with final combined tensor `Tf`. -/
def solvedAfter (st : ProblemState) (Tf : Tensor) : (Nat × Nat) → Tbl :=
  fun k => if k ∈ problemKeys st.nCategories then extractTbl Tf k.1 k.2 else st.solved k

/-- The problem state a successful `draw_conclusions` run returns. -/
def afterDraw (st : ProblemState) (Tf : Tensor) (cl : List Clue) : ProblemState :=
  { st with solved := solvedAfter st Tf, clues := some cl }

theorem drawConclusions_eq_ok (fuel : Nat) (st : ProblemState) {Tf : Tensor}
    {cl : List Clue}
    (h : drawLoop st.nCategories st.nItems fuel
      (initIdentity st.nCategories st.nItems (seedTensor st)) st.clues = .ok (Tf, cl)) :
    drawConclusions fuel st = .ok (afterDraw st Tf cl) := by
  unfold drawConclusions
  rw [h]
  rfl

theorem drawConclusions_ok_shape {fuel : Nat} {st st1 : ProblemState}
    (h : drawConclusions fuel st = .ok st1) :
    ∃ Tf cl,
      drawLoop st.nCategories st.nItems fuel
        (initIdentity st.nCategories st.nItems (seedTensor st)) st.clues =
          .ok (Tf, cl) ∧
      st1 = afterDraw st Tf cl := by
  unfold drawConclusions at h
  cases hdl : drawLoop st.nCategories st.nItems fuel
      (initIdentity st.nCategories st.nItems (seedTensor st)) st.clues with
  | error e => rw [hdl] at h; cases h
  | ok p =>
    rw [hdl] at h
    obtain ⟨Tf, cl⟩ := p
    dsimp only at h
    cases h
    exact ⟨Tf, cl, rfl, rfl⟩

end LogicalSolver


namespace LogicalSolver

/-- C7: `draw_conclusions` is idempotent. A second run from the state a
successful run returns succeeds as well and computes the same solved
tensor, because the returned state keeps the sizes, assignment grids and
clue solvers of the input, and a run depends on clues only through their
solvers. -/
theorem c7_draw_conclusions_idempotent :
    ∀ (fuel : Nat) (st st1 : ProblemState), drawConclusions fuel st = .ok st1 →
      ∃ st2, drawConclusions fuel st1 = .ok st2 ∧ st2.solved = st1.solved := by
  intro fuel st st1 h
  obtain ⟨Tf, cl, hdl, rfl⟩ := drawConclusions_ok_shape h
  cases hcl : st.clues with
  | none =>
    rw [hcl] at hdl
    exact absurd hdl (drawLoop_none_not_ok _ _ _ _ _)
  | some cl0 =>
    rw [hcl] at hdl
    have hself : CluesEq cl0 cl :=
      drawLoop_clues_self st.nCategories st.nItems fuel _ cl0 Tf cl hdl
    have hrel := drawLoop_solver_eq st.nCategories st.nItems fuel
      (initIdentity st.nCategories st.nItems (seedTensor st)) cl0 cl hself
    rw [hdl] at hrel
    cases hB : drawLoop st.nCategories st.nItems fuel
        (initIdentity st.nCategories st.nItems (seedTensor st)) (some cl) with
    | error e => rw [hB] at hrel; exact hrel.elim
    | ok q =>
      rw [hB] at hrel
      obtain ⟨Tf2, cl2⟩ := q
      obtain ⟨hTT, hclcl⟩ := hrel
      subst hTT
      have hB2 : drawLoop (afterDraw st Tf cl).nCategories
          (afterDraw st Tf cl).nItems fuel
          (initIdentity (afterDraw st Tf cl).nCategories (afterDraw st Tf cl).nItems
            (seedTensor (afterDraw st Tf cl)))
          (afterDraw st Tf cl).clues = .ok (Tf, cl2) := hB
      refine ⟨afterDraw (afterDraw st Tf cl) Tf cl2,
        drawConclusions_eq_ok fuel (afterDraw st Tf cl) hB2, ?_⟩
      funext k
      show (if k ∈ problemKeys st.nCategories then extractTbl Tf k.1 k.2
          else solvedAfter st Tf k) =
        (if k ∈ problemKeys st.nCategories then extractTbl Tf k.1 k.2 else st.solved k)
      by_cases hk : k ∈ problemKeys st.nCategories
      · rw [if_pos hk, if_pos hk]
      · rw [if_neg hk, if_neg hk]
        show (if k ∈ problemKeys st.nCategories then extractTbl Tf k.1 k.2
            else st.solved k) = st.solved k
        rw [if_neg hk]

/-- The state the first `draw_conclusions` run returns for a fresh
two-category, two-item problem with an empty clue list. -/
def c7FirstResult : ProblemState :=
  { mkProblem 2 2 (some []) with
    solved := fun k =>
      if k ∈ problemKeys 2 then extractTbl noneTensor k.1 k.2
      else (mkProblem 2 2 (some [])).solved k
    clues := some [] }

/-- Witness: the idempotence theorem applied to a concrete successful run. -/
theorem c7_draw_conclusions_idempotent_witness :
    ∃ st2, drawConclusions 5 c7FirstResult = .ok st2 ∧
      st2.solved = c7FirstResult.solved :=
  c7_draw_conclusions_idempotent 5 (mkProblem 2 2 (some [])) c7FirstResult (by rfl)

end LogicalSolver


namespace LogicalSolver

/-- C2: the four structural passes only write neutral cells: every
combined-tensor cell that is non-neutral before a pass holds the same value
after it (`PreservesT`), for the exactly-one, transposition, pseudo-true
and cross-elimination passes. -/
theorem c2_structural_passes_neutral_only :
    (∀ (nc n fuel : Nat) (T : Tensor) (b : Bool) (T2 : Tensor),
        applyExactlyOneLogic nc n fuel T = .ok (b, T2) → PreservesT T T2) ∧
    (∀ (nc n fuel : Nat) (T : Tensor) (b : Bool) (T2 : Tensor),
        applyTranspositionLogic nc n fuel T = .ok (b, T2) → PreservesT T T2) ∧
    (∀ (nc n : Nat) (T : Tensor), PreservesT T (applyPseudoTrue nc n T).2) ∧
    (∀ (nc n : Nat) (T : Tensor), PreservesT T (applyCrossElimination nc n T).2) :=
  ⟨fun _ _ _ _ _ _ h => applyExactlyOneLogic_preserves h,
    fun _ _ _ _ _ _ h => applyTranspositionLogic_preserves h,
    applyPseudoTrue_preserves, applyCrossElimination_preserves⟩

/-- Witness: the exactly-one conjunct applied to a concrete successful
pass. -/
theorem c2_structural_passes_neutral_only_witness :
    PreservesT c5Tensor c5After :=
  c2_structural_passes_neutral_only.1 2 3 9 c5Tensor true c5After c5_run

/-- C4: the first row of `oneBadTbl2` counts two positives and keeps a
neutral cell, yet one exactly-one step writes nothing to the table while
reporting a change: with p = 2 the pass does not set the remaining neutral
cell negative, contrary to the claimed p ≥ 1 elimination. -/
theorem c4_exactly_one_overcount_unchanged :
    (countTypes 3 (fun j => getC oneBadTbl2 0 j)).1 = 2 ∧
    getC oneBadTbl2 0 2 = .neutral ∧
    stepExactlyOne 3 oneBadTbl2 = (true, oneBadTbl2) := by decide

/-- C5 (amended): tensor symmetry holds after seeding and the identity
fill, and is preserved by the transposition pass, the cross-elimination
pass and clue processing on a well-formed symmetric tensor. The per-table
exactly-one pass is excluded: it can break symmetry. -/
theorem c5_symmetry_amended :
    (∀ st : ProblemState,
        Symm (initIdentity st.nCategories st.nItems (seedTensor st))) ∧
    (∀ (nc n fuel : Nat) (T : Tensor) (b : Bool) (T2 : Tensor), WS nc n T →
        applyTranspositionLogic nc n fuel T = .ok (b, T2) → Symm T2) ∧
    (∀ (nc n : Nat) (T : Tensor), WS nc n T →
        Symm (applyCrossElimination nc n T).2) ∧
    (∀ (nc n : Nat) (T : Tensor) (cl : List Clue), WS nc n T →
        Symm (processCluesList T cl).2.1) :=
  ⟨fun st => (seededTensor_ws st).2,
    fun _ _ _ _ _ _ hws heq => (applyTranspositionLogic_ws heq hws).2,
    fun nc n T hws => (applyCrossElimination_ws nc n T hws).2,
    fun _ _ T cl hws => (processCluesList_ws cl T hws).2⟩

/-- Witness: the cross-elimination conjunct at a concrete tensor. -/
theorem c5_symmetry_amended_witness :
    Symm (applyCrossElimination 2 2 (blankTensor 2 2)).2 :=
  c5_symmetry_amended.2.2.1 2 2 (blankTensor 2 2) ⟨wf_blank 2 2, symm_blank 2 2⟩

/-- C5 counterexample: the exactly-one pass applied to the symmetric seeded
tensor of `c5Problem` produces a tensor whose blocks `(0, 1)` and `(1, 0)`
are no longer transposes of each other. -/
theorem c5_symmetry_broken_by_exactly_one :
    Symm c5Tensor ∧
    applyExactlyOneLogic 2 3 9 c5Tensor = .ok (true, c5After) ∧
    getT c5After 0 1 0 2 ≠ getT c5After 1 0 2 0 :=
  ⟨(seededTensor_ws c5Problem).2, c5_run, by decide⟩

/-- C6: applying one clue conclusion: a neutral-valued conclusion writes
nothing, and a non-neutral conclusion lands in both the addressed cell and
its transpose, overwriting a differing non-neutral value as well. -/
theorem c6_clue_conclusion_writes :
    ∀ (acc : Bool × Bool × Tensor) (u : Conclusion),
      (u.2.2 = .neutral → (applyConclusion acc u).2.2 = acc.2.2) ∧
      (∀ nc n : Nat, u.2.2 ≠ .neutral → WFTensor nc n acc.2.2 →
        u.1.1 < nc → u.2.1.1 < nc → u.1.2 < n → u.2.1.2 < n →
        getT (applyConclusion acc u).2.2 u.1.1 u.2.1.1 u.1.2 u.2.1.2 = u.2.2 ∧
        getT (applyConclusion acc u).2.2 u.2.1.1 u.1.1 u.2.1.2 u.1.2 = u.2.2) := by
  intro acc u
  obtain ⟨⟨x1, r1⟩, ⟨x2, r2⟩, v⟩ := u
  constructor
  · intro hv
    unfold applyConclusion
    try dsimp only
    rw [if_pos hv]
  · intro nc n hv hwf h1 h2 h3 h4
    unfold applyConclusion
    try dsimp only
    rw [if_neg hv]
    try dsimp only
    by_cases hc1 : getT acc.2.2 x1 x2 r1 r2 ≠ v
    · rw [if_pos hc1]
      try dsimp only
      have hwf1 : WFTensor nc n (setT acc.2.2 x1 x2 r1 r2 v) :=
        hwf.setT x1 x2 r1 r2 v
      by_cases hc2 : getT (setT acc.2.2 x1 x2 r1 r2 v) x2 x1 r2 r1 ≠ v
      · rw [if_pos hc2]
        try dsimp only
        constructor
        · by_cases hd : x2 = x1 ∧ r2 = r1
          · rw [hd.1, hd.2]
            exact getT_setT_self (hwf.setT x1 x1 r1 r1 v) v h1 h1 h3 h3
          · rw [getT_setT_ne _ v (fun hh => hd ⟨hh.2.1, hh.2.2.2⟩)]
            exact getT_setT_self hwf v h1 h2 h3 h4
        · exact getT_setT_self hwf1 v h2 h1 h4 h3
      · rw [if_neg hc2]
        try dsimp only
        constructor
        · exact getT_setT_self hwf v h1 h2 h3 h4
        · exact not_not.mp hc2
    · rw [if_neg hc1]
      try dsimp only
      have hg1 : getT acc.2.2 x1 x2 r1 r2 = v := not_not.mp hc1
      by_cases hc2 : getT acc.2.2 x2 x1 r2 r1 ≠ v
      · rw [if_pos hc2]
        try dsimp only
        constructor
        · by_cases hd : x2 = x1 ∧ r2 = r1
          · rw [hd.1, hd.2]
            exact getT_setT_self hwf v h1 h1 h3 h3
          · rw [getT_setT_ne _ v (fun hh => hd ⟨hh.2.1, hh.2.2.2⟩)]
            exact hg1
        · exact getT_setT_self hwf v h2 h1 h4 h3
      · rw [if_neg hc2]
        exact ⟨hg1, not_not.mp hc2⟩

/-- Witness: a positive conclusion written into the blank tensor lands in
the cell and its transpose. -/
theorem c6_clue_conclusion_writes_witness :
    getT (applyConclusion (false, true, blankTensor 2 2)
        ((0, 0), (1, 1), RelationState.positive)).2.2 0 1 0 1 =
      RelationState.positive ∧
    getT (applyConclusion (false, true, blankTensor 2 2)
        ((0, 0), (1, 1), RelationState.positive)).2.2 1 0 1 0 =
      RelationState.positive :=
  (c6_clue_conclusion_writes (false, true, blankTensor 2 2)
      ((0, 0), (1, 1), RelationState.positive)).2 2 2 (by decide)
    (wf_blank 2 2) (by decide) (by decide) (by decide) (by decide)

/-- C8: an ExactGreater clue whose less side is confirmed positive at a
unique axis index i0 while the more side shows no positive concludes the
more item positive at index i0 + diff; symmetrically, a confirmed more
side at i0 concludes the less item positive at index i0 - diff. -/
theorem c8_exact_greater_confirmed_side :
    ∀ (more less : Item) (axis diff n : Nat)
      (resp : List (Item × Item × RelationState)),
      (∀ i0, i0 < n → (∀ k, k < n → (respVal resp k = .positive ↔ k = i0)) →
        (∀ k, k < n → respVal resp (k + n) ≠ .positive) →
        (more, (axis, i0 + diff), RelationState.positive) ∈
          (ClueSolver.exactGreater more less axis diff n).drawClueConclusions resp) ∧
      (∀ i0, i0 < n →
        (∀ k, k < n → (respVal resp (k + n) = .positive ↔ k = i0)) →
        (∀ k, k < n → respVal resp k ≠ .positive) →
        (less, (axis, i0 - diff), RelationState.positive) ∈
          (ClueSolver.exactGreater more less axis diff n).drawClueConclusions resp) := by
  intro more less axis diff n resp
  constructor
  · intro i0 hi hu hn
    unfold ClueSolver.drawClueConclusions
    dsimp only
    rw [posScan_unique (fun i => respVal resp i) n i0 hi hu,
      posScan_none (fun i => respVal resp (i + n)) n hn]
    dsimp only
    exact List.mem_append_right _ (List.mem_singleton.mpr rfl)
  · intro i0 hi hu hn
    unfold ClueSolver.drawClueConclusions
    dsimp only
    rw [posScan_none (fun i => respVal resp i) n hn,
      posScan_unique (fun i => respVal resp (i + n)) n i0 hi hu]
    dsimp only
    exact List.mem_append_right _ (List.mem_singleton.mpr rfl)

/-- Query responses for an ExactGreater clue with diff 2 over 5 items: the
less side confirmed at axis index 1, the more side fully unknown. -/
def c8Resp : List (Item × Item × RelationState) :=
  (List.range 5).map (fun i =>
    (((2 : Nat), (0 : Nat)), ((0 : Nat), i),
      if i = 1 then RelationState.positive else RelationState.negative)) ++
  (List.range 5).map (fun i =>
    (((1 : Nat), (0 : Nat)), ((0 : Nat), i), RelationState.neutral))

/-- Witness: with diff 2 and the less side confirmed at index 1, the more
item is concluded positive at index 3. -/
theorem c8_exact_greater_confirmed_side_witness :
    ((1, 0), ((0 : Nat), (3 : Nat)), RelationState.positive) ∈
      (ClueSolver.exactGreater (1, 0) (2, 0) 0 2 5).drawClueConclusions c8Resp :=
  (c8_exact_greater_confirmed_side (1, 0) (2, 0) 0 2 5 c8Resp).1 1 (by decide)
    (by decide) (by decide)

/-- An equivalence clue that has been toggled inactive. -/
def c9Clue : Clue :=
  { text := "eq", nItem := 2, active := false,
    solver := .equivalence (0, 0) (1, 0) }

/-- C9 (amended): clue processing ignores the active flag entirely: the
change flag and the tensor that `processClue` produces are the same
whatever the value of `active`, so an inactive clue contributes exactly
what an active one does. -/
theorem c9_active_flag_ignored :
    ∀ (T : Tensor) (c : Clue) (b : Bool),
      (processClue T { c with active := b }).1 = (processClue T c).1 ∧
      (processClue T { c with active := b }).2.1 = (processClue T c).2.1 :=
  fun _ _ _ => ⟨rfl, rfl⟩

/-- C9 counterexample: an inactive clue still writes to the tensor. -/
theorem c9_inactive_clue_writes :
    c9Clue.active = false ∧
    (processClue (blankTensor 2 2) c9Clue).2.1 ≠ blankTensor 2 2 := by decide

/-- A two-category, two-item problem whose solved tensor already holds a
negative at pair (0, 1), cell (0, 0). -/
def c1Problem : ProblemState :=
  { mkProblem 2 2 (some []) with
    solved := fun k =>
      if k = (0, 1) then [[.negative, .neutral], [.neutral, .neutral]]
      else List.replicate 2 (List.replicate 2 .neutral) }

/-- C1: on a neutral cell, update is rejected, returning false and the
unchanged state, exactly when the solved value is non-neutral and differs
from the requested value; otherwise it writes the request and reruns
draw_conclusions; on a non-neutral cell it resets to neutral and always
reruns. -/
theorem c1_update_reject_iff :
    ∀ (fuel : Nat) (desired : Bool) (key : Nat × Nat) (r c : Nat)
      (st : ProblemState),
      (getC (st.assign key) r c = .neutral →
        (update fuel desired key r c st = .ok (false, st) ↔
          (getC (st.solved key) r c ≠ .neutral ∧
           getC (st.solved key) r c ≠
             (if desired then .positive else .negative)))) ∧
      (getC (st.assign key) r c = .neutral →
        ¬(getC (st.solved key) r c ≠ .neutral ∧
          getC (st.solved key) r c ≠
            (if desired then .positive else .negative)) →
        update fuel desired key r c st =
          (drawConclusions fuel
            (setAssign st key r c (if desired then .positive else .negative))).map
            (fun st2 => (true, st2))) ∧
      (getC (st.assign key) r c ≠ .neutral →
        update fuel desired key r c st =
          (drawConclusions fuel (setAssign st key r c .neutral)).map
            (fun st2 => (true, st2))) := by
  intro fuel desired key r c st
  refine ⟨?_, ?_, ?_⟩
  · intro hneu
    unfold update
    dsimp only
    rw [if_pos hneu]
    constructor
    · intro h
      by_cases hc : getC (st.solved key) r c ≠ .neutral ∧
          getC (st.solved key) r c ≠ (if desired then .positive else .negative)
      · exact hc
      · rw [if_neg hc] at h
        cases hd : drawConclusions fuel
            (setAssign st key r c (if desired then .positive else .negative)) with
        | error e => rw [hd] at h; cases h
        | ok st2 => rw [hd] at h; simp at h
    · intro hc
      rw [if_pos hc]
  · intro hneu hok
    unfold update
    dsimp only
    rw [if_pos hneu, if_neg hok]
    cases hd : drawConclusions fuel
        (setAssign st key r c (if desired then .positive else .negative)) with
    | error e => rfl
    | ok st2 => rfl
  · intro hne
    unfold update
    dsimp only
    rw [if_neg hne]
    cases hd : drawConclusions fuel (setAssign st key r c .neutral) with
    | error e => rfl
    | ok st2 => rfl

/-- Witness: the rejection branch at a concrete problem. -/
theorem c1_update_reject_iff_witness :
    update 5 true (0, 1) 0 0 c1Problem = .ok (false, c1Problem) :=
  ((c1_update_reject_iff 5 true (0, 1) 0 0 c1Problem).1 (by decide)).mpr
    (by decide)

end LogicalSolver
